import Mathlib

/-!
Verification of the brute-force DPLL SAT solver in `bf_SATsolver.cpp`.

The C++ program is shallowly embedded as follows:

* a `SATproblem` is a variable count together with a list of clauses, each a
  list of signed literals (`vector<vector<int>>`);
* the assignment array `vector<int>` (entries `0` = unassigned, `1` = true,
  `-1` = false) is a `List Int`, indexed as in the source via `var - 1`;
  `List.getD` models `operator[]` on indices that the source reads, and
  `List.set` models in-place writes (both are no-ops out of range, which is
  only exercised by theorems whose hypotheses keep the source in defined
  behaviour);
* the recursive `solve` is defined by well-founded recursion on
  `numVars + 1 - varIndex`, exactly mirroring the source's control flow;
  `solveFuel` is the same function with an explicit fuel bound, used both to
  express the recursion-depth bound and to evaluate `solve` on concrete
  inputs.
-/

/-- Model of `struct SATproblem`: a variable count and the stored clauses. -/
structure SATproblem where
  numVars : Nat
  clauses : List (List Int)

/-- Value of the variable underlying literal `lit`: `assignment[abs(lit)-1]`. -/
def litValue (a : List Int) (lit : Int) : Int :=
  a.getD (lit.natAbs - 1) 0

/-- The satisfied-literal test `(lit > 0 && value > 0) || (lit < 0 && value < 0)`
used verbatim in `checkConflict`, `findUnitClauses` and `findPureLiterals`. -/
def litSatisfied (a : List Int) (lit : Int) : Bool :=
  (decide (0 < lit) && decide (0 < litValue a lit)) ||
    (decide (lit < 0) && decide (litValue a lit < 0))

/-- Per-clause scan of `checkConflict` (lines 80-107): walk the literals,
breaking as undecided when `var > assignment.size()` or the value is `0`,
breaking as satisfied on a satisfied literal; the clause is a conflict iff
the scan runs off the end with every literal assigned and falsified. -/
def clauseFalsified (a : List Int) : List Int → Bool
  | [] => true
  | lit :: rest =>
    if a.length < lit.natAbs then false
    else if litValue a lit == 0 then false
    else if litSatisfied a lit then false
    else clauseFalsified a rest

/-- Model of `checkConflict`: true iff some stored clause is falsified. -/
def checkConflict (p : SATproblem) (a : List Int) : Bool :=
  p.clauses.any fun c => clauseFalsified a c

/-- Satisfied-clause test used by `findPureLiterals` (lines 160-170): the
clause contains a satisfied literal. -/
def clauseSatisfied (a : List Int) (c : List Int) : Bool :=
  c.any fun lit => litSatisfied a lit

/-- Per-clause scan of `findUnitClauses` (lines 121-144) with the running
`unassignedLit` accumulator `u` (initially `0`): break with no result on a
satisfied literal or on a second unassigned literal; after a full scan the
clause contributes `u` when `u ≠ 0`. -/
def unitScan (a : List Int) : List Int → Int → Option Int
  | [], u => if u ≠ 0 then some u else none
  | lit :: rest, u =>
    if litSatisfied a lit then none
    else if litValue a lit == 0 then
      if u ≠ 0 then none else unitScan a rest lit
    else unitScan a rest u

/-- Model of `findUnitClauses`: forced literals of all unit clauses, in
clause order. -/
def findUnitClauses (p : SATproblem) (a : List Int) : List Int :=
  p.clauses.filterMap fun c => unitScan a c 0

/-- Flag `posAppears[v]` built by `findPureLiterals` (lines 155-186): variable
`v` has a positive occurrence with unassigned value in some clause that has
no satisfied literal. -/
def posAppears (p : SATproblem) (a : List Int) (v : Nat) : Bool :=
  p.clauses.any fun c =>
    !clauseSatisfied a c &&
      c.any fun lit => decide (0 < lit) && (lit.natAbs == v) && (litValue a lit == 0)

/-- Flag `negAppears[v]` built by `findPureLiterals`: as `posAppears` but for a
negative occurrence. -/
def negAppears (p : SATproblem) (a : List Int) (v : Nat) : Bool :=
  p.clauses.any fun c =>
    !clauseSatisfied a c &&
      c.any fun lit => decide (lit < 0) && (lit.natAbs == v) && (litValue a lit == 0)

/-- Model of `findPureLiterals` (lines 188-196): scan variables `1..numVars`
in increasing order; an unassigned variable appearing in exactly one polarity
yields one literal of that polarity. -/
def findPureLiterals (p : SATproblem) (a : List Int) : List Int :=
  (List.range' 1 p.numVars).filterMap fun v =>
    if a.getD (v - 1) 0 == 0 then
      if posAppears p a v && !negAppears p a v then some (Int.ofNat v)
      else if !posAppears p a v && negAppears p a v then some (-(Int.ofNat v))
      else none
    else none

/-- Undo loop `for (auto& p : saved) assignment[p.first] = p.second;`. -/
def undoAll (saved : List (Nat × Int)) (a : List Int) : List Int :=
  saved.foldl (fun acc q => acc.set q.1 q.2) a

/-- Unit-propagation loop of `solve` (lines 214-227): for each forced literal
whose variable is still unassigned, record `(var-1, 0)` in `saved`, assign the
variable, and re-check for conflict; on conflict undo everything recorded and
report failure.  Returns `(conflicted, assignment, saved)`. -/
def unitLoop (p : SATproblem) : List Int → List (Nat × Int) → List Int →
    Bool × List Int × List (Nat × Int)
  | [], saved, cur => (false, cur, saved)
  | lit :: rest, saved, cur =>
    if cur.getD (lit.natAbs - 1) 0 == 0 then
      if checkConflict p (cur.set (lit.natAbs - 1) (if 0 < lit then 1 else -1)) then
        (true,
          undoAll (saved ++ [(lit.natAbs - 1, (0 : Int))])
            (cur.set (lit.natAbs - 1) (if 0 < lit then 1 else -1)),
          saved ++ [(lit.natAbs - 1, (0 : Int))])
      else
        unitLoop p rest (saved ++ [(lit.natAbs - 1, (0 : Int))])
          (cur.set (lit.natAbs - 1) (if 0 < lit then 1 else -1))
    else unitLoop p rest saved cur

/-- Pure-literal loop of `solve` (lines 231-237): assign each pure literal
whose variable is still unassigned, recording `(var-1, 0)` in `saved`. -/
def pureLoop : List Int → List (Nat × Int) → List Int → List Int × List (Nat × Int)
  | [], saved, cur => (cur, saved)
  | lit :: rest, saved, cur =>
    if cur.getD (lit.natAbs - 1) 0 == 0 then
      pureLoop rest (saved ++ [(lit.natAbs - 1, (0 : Int))])
        (cur.set (lit.natAbs - 1) (if 0 < lit then 1 else -1))
    else pureLoop rest saved cur

/-- Number of iterations of the scan
`while (nextVar <= numVars && assignment[nextVar-1] != 0) nextVar++;`
when at most `f` slots remain; `f` is instantiated with `n + 1 - i` so that
the fuel runs out exactly when `i` exceeds `n`. -/
def skipCount (a : List Int) : Nat → Nat → Nat
  | 0, _ => 0
  | f + 1, i => if a.getD (i - 1) 0 == 0 then 0 else skipCount a f (i + 1) + 1

/-- Model of the `nextVar` scan of `solve` (lines 243-246): the first index
`≥ i` that is `> n` or holds an unassigned variable. -/
def findNext (a : List Int) (n i : Nat) : Nat :=
  i + skipCount a (n + 1 - i) i

/-- Model of `solve` (lines 205-271), returning the result together with the
final contents of the assignment array.  The source mutates `assignment` in
place; here every intermediate array is passed along explicitly. -/
def solve (p : SATproblem) (a : List Int) (varIndex : Nat) : Bool × List Int :=
  if checkConflict p a then (false, a)
  else
    match unitLoop p (findUnitClauses p a) [] a with
    | (true, aRestored, _) => (false, aRestored)
    | (false, a1, saved1) =>
      match pureLoop (findPureLiterals p a1) saved1 a1 with
      | (a2, saved2) =>
        if p.numVars < varIndex then (!checkConflict p a2, a2)
        else
          if _h2 : p.numVars < findNext a2 p.numVars varIndex then
            (!checkConflict p a2, a2)
          else
            match solve p (a2.set (findNext a2 p.numVars varIndex - 1) 1)
                (findNext a2 p.numVars varIndex + 1) with
            | (true, a4) => (true, a4)
            | (false, a4) =>
              match solve p (a4.set (findNext a2 p.numVars varIndex - 1) (-1))
                  (findNext a2 p.numVars varIndex + 1) with
              | (true, a6) => (true, a6)
              | (false, a6) =>
                (false, undoAll saved2 (a6.set (findNext a2 p.numVars varIndex - 1) 0))
termination_by p.numVars + 1 - varIndex
decreasing_by
  all_goals simp only [findNext] at *
  all_goals omega

/-- Fuel-indexed version of `solve`: structurally recursive on the fuel, `none`
when the fuel runs out.  `solveFuel_spec` shows fuel `numVars + 1 - varIndex + 1`
always suffices, which is the recursion-depth bound of the source. -/
def solveFuel : Nat → SATproblem → List Int → Nat → Option (Bool × List Int)
  | 0, _, _, _ => none
  | f + 1, p, a, varIndex =>
    if checkConflict p a then some (false, a)
    else
      match unitLoop p (findUnitClauses p a) [] a with
      | (true, aRestored, _) => some (false, aRestored)
      | (false, a1, saved1) =>
        match pureLoop (findPureLiterals p a1) saved1 a1 with
        | (a2, saved2) =>
          if p.numVars < varIndex then some (!checkConflict p a2, a2)
          else
            if p.numVars < findNext a2 p.numVars varIndex then
              some (!checkConflict p a2, a2)
            else
              match solveFuel f p (a2.set (findNext a2 p.numVars varIndex - 1) 1)
                  (findNext a2 p.numVars varIndex + 1) with
              | none => none
              | some (true, a4) => some (true, a4)
              | some (false, a4) =>
                match solveFuel f p (a4.set (findNext a2 p.numVars varIndex - 1) (-1))
                    (findNext a2 p.numVars varIndex + 1) with
                | none => none
                | some (true, a6) => some (true, a6)
                | some (false, a6) =>
                  some (false, undoAll saved2 (a6.set (findNext a2 p.numVars varIndex - 1) 0))

/-- Problem Model invariant: every stored literal satisfies `1 ≤ |l| ≤ numVars`. -/
def ProblemInv (p : SATproblem) : Prop :=
  ∀ c ∈ p.clauses, ∀ l ∈ c, 1 ≤ l.natAbs ∧ l.natAbs ≤ p.numVars

/-- A total assignment over `n` variables: length `n`, every entry `1` or `-1`. -/
def TotalOn (σ : List Int) (n : Nat) : Prop :=
  σ.length = n ∧ ∀ j < n, σ.getD j 0 = 1 ∨ σ.getD j 0 = -1

/-- `σ` agrees with the partial assignment `a` on every assigned variable. -/
def Agrees (σ a : List Int) : Prop :=
  ∀ j, a.getD j 0 ≠ 0 → σ.getD j 0 = a.getD j 0

/-- `σ` satisfies every stored clause: each clause has a literal whose
variable's value matches the literal's polarity. -/
def Satisfies (σ : List Int) (p : SATproblem) : Prop :=
  ∀ c ∈ p.clauses, ∃ l ∈ c, litSatisfied σ l = true

/-- Every entry of the assignment array is a legal tri-state value. -/
def WfVals (a : List Int) : Prop :=
  ∀ j, a.getD j 0 = 0 ∨ a.getD j 0 = 1 ∨ a.getD j 0 = -1

/-- Semantic reading of the `posAppears` flag. -/
def PosOcc (p : SATproblem) (a : List Int) (v : Nat) : Prop :=
  ∃ c ∈ p.clauses, (∀ x ∈ c, litSatisfied a x = false) ∧
    ∃ x ∈ c, 0 < x ∧ x.natAbs = v ∧ litValue a x = 0

/-- Semantic reading of the `negAppears` flag. -/
def NegOcc (p : SATproblem) (a : List Int) (v : Nat) : Prop :=
  ∃ c ∈ p.clauses, (∀ x ∈ c, litSatisfied a x = false) ∧
    ∃ x ∈ c, x < 0 ∧ x.natAbs = v ∧ litValue a x = 0

/-- Characterisation of a literal returned by `findPureLiterals`:
an in-range unassigned variable whose unassigned occurrences in unsatisfied
clauses are all of the literal's polarity. -/
def PureCondP (p : SATproblem) (a : List Int) (l : Int) : Prop :=
  1 ≤ l.natAbs ∧ l.natAbs ≤ p.numVars ∧ a.getD (l.natAbs - 1) 0 = 0 ∧
    ((0 < l ∧ PosOcc p a l.natAbs ∧ ¬NegOcc p a l.natAbs) ∨
      (l < 0 ∧ NegOcc p a l.natAbs ∧ ¬PosOcc p a l.natAbs))

/-- Invariant of an undo list: it records only variables that were unassigned
in the frame's entry assignment `a0` (with recorded prior value `0`), and the
current assignment `cur` agrees with `a0` everywhere else. -/
def SavedInv (a0 : List Int) (saved : List (Nat × Int)) (cur : List Int) : Prop :=
  cur.length = a0.length ∧ (∀ q ∈ saved, q.2 = 0) ∧
    (∀ j, (∃ q ∈ saved, q.1 = j) → a0.getD j 0 = 0) ∧
    (∀ j, (¬∃ q ∈ saved, q.1 = j) → cur.getD j 0 = a0.getD j 0)

/-- Unconditional application of a list of literals to an assignment (used to
describe the effect of `pureLoop` and to build modified total assignments). -/
def overrideL (L : List Int) (b : List Int) : List Int :=
  L.foldl (fun acc l => acc.set (l.natAbs - 1) (if 0 < l then 1 else -1)) b

/-- Adjacent-duplicate removal performed by
`sort(...); auto last = unique(...); clause.erase(last, ...)` on the sorted
clause (`unique` collapses each run of equal adjacent elements into one). -/
def removeAdjacentDups : List Int → List Int
  | [] => []
  | [x] => [x]
  | x :: y :: rest =>
    if x == y then removeAdjacentDups (y :: rest)
    else x :: removeAdjacentDups (y :: rest)

/-- Tautology scan of `parseDIMACS` (lines 58-64) for a nonempty clause: is
there an adjacent pair `clause[i] == -clause[i+1]`?  For the empty clause the
source loop bound underflows; that case is modelled by `tautScanBound`. -/
def hasAdjacentComplement (c : List Int) : Bool :=
  (c.zip c.tail).any fun q => q.1 == -q.2

/-- Clause construction of `parseDIMACS` for one raw clause line: sort,
remove duplicates, and drop the clause when the adjacent-complement scan
fires.  `std::sort` on `int`s is modelled by `insertionSort` (the sorted
permutation of a list of integers is unique). -/
def processRawClause (raw : List Int) : Option (List Int) :=
  if hasAdjacentComplement (removeAdjacentDups (List.insertionSort (fun x y => x ≤ y) raw)) then
    none
  else
    some (removeAdjacentDups (List.insertionSort (fun x y => x ≤ y) raw))

/-- The loop bound `clause.size() - 1` of the tautology scan, computed in
`size_t` arithmetic (64-bit unsigned wrap-around). -/
def tautScanBound (n : Nat) : Nat :=
  (n + (2 ^ 64 - 1)) % 2 ^ 64

/-- The tautology scan stays in bounds: every iteration `i < clause.size() - 1`
(in `size_t`) reads `clause[i]` and `clause[i+1]` inside the clause. -/
def tautScanAccessSafe (c : List Int) : Prop :=
  ∀ i, i < tautScanBound c.length → i + 1 < c.length

/-- Result channel verdicts of `main`. -/
inductive Verdict where
  | sat (model : List Int)
  | unsat
  | error
deriving DecidableEq

/-- Model of `main`'s result and exit status (lines 273-305) as a function of
the outcome of the guarded region's parse: `Except.error` is the case in which
parsing or solving raises, handled by the `catch` blocks, which print
`s ERROR` to the result channel and then fall through to `return 0`;
`Except.ok` is the normal path (`numVars <= 0` is numVars = 0 here since the
model's variable count is a natural number). -/
def mainVerdict (outcome : Except String SATproblem) : Verdict × Nat :=
  match outcome with
  | Except.error _ => (Verdict.error, 0)
  | Except.ok p =>
    if p.numVars = 0 then (Verdict.error, 1)
    else
      match solve p (List.replicate p.numVars 0) 1 with
      | (true, final) =>
        (Verdict.sat ((List.range' 1 p.numVars).map fun v =>
          final.getD (v - 1) 0 * Int.ofNat v), 0)
      | (false, _) => (Verdict.unsat, 0)

/-! Basic lemmas about `List.getD`, `List.set` and `undoAll`. -/

theorem getD_eq_get? (l : List Int) (j : Nat) : l.getD j 0 = (l.get? j).getD 0 := by
  simp [List.getD]

theorem getD_of_length_le (l : List Int) (j : Nat) (h : l.length ≤ j) : l.getD j 0 = 0 := by
  rw [getD_eq_get?, List.get?_eq_none.mpr h]
  rfl

theorem getD_set_self (l : List Int) (j : Nat) (v : Int) (h : j < l.length) :
    (l.set j v).getD j 0 = v := by
  rw [getD_eq_get?, List.get?_set_eq_of_lt v h]
  rfl

theorem getD_set_ne (l : List Int) (i j : Nat) (v : Int) (h : i ≠ j) :
    (l.set i v).getD j 0 = l.getD j 0 := by
  rw [getD_eq_get?, List.get?_set_ne v l h, getD_eq_get?]

theorem set_of_getD_eq (l : List Int) (j : Nat) (v : Int) (h : l.getD j 0 = v) :
    l.set j v = l := by
  induction l generalizing j with
  | nil => rfl
  | cons x xs ih =>
    cases j with
    | zero =>
      simp only [List.getD, List.get?, Option.getD_some] at h
      simp [List.set, h]
    | succ n =>
      simp only [List.set]
      rw [ih n]
      exact h

theorem list_ext_getD (l m : List Int) (hlen : l.length = m.length)
    (h : ∀ j, l.getD j 0 = m.getD j 0) : l = m := by
  induction l generalizing m with
  | nil =>
    cases m with
    | nil => rfl
    | cons y ys => simp at hlen
  | cons x xs ih =>
    cases m with
    | nil => simp at hlen
    | cons y ys =>
      have h0 := h 0
      simp only [List.getD, List.get?, Option.getD_some] at h0
      rw [h0, ih ys (by simpa using hlen) (fun j => by simpa using h (j + 1))]

theorem length_undoAll (saved : List (Nat × Int)) (b : List Int) :
    (undoAll saved b).length = b.length := by
  induction saved generalizing b with
  | nil => rfl
  | cons q rest ih =>
    simp only [undoAll, List.foldl_cons] at *
    rw [ih (b.set q.1 q.2), List.length_set]

theorem undoAll_cons (q : Nat × Int) (rest : List (Nat × Int)) (b : List Int) :
    undoAll (q :: rest) b = undoAll rest (b.set q.1 q.2) := rfl

theorem undoAll_getD_not_mem (saved : List (Nat × Int)) (b : List Int) (j : Nat)
    (hnm : ¬∃ q ∈ saved, q.1 = j) :
    (undoAll saved b).getD j 0 = b.getD j 0 := by
  induction saved generalizing b with
  | nil => rfl
  | cons q rest ih =>
    rw [undoAll_cons, ih (b.set q.1 q.2) (fun ⟨r, hr, hrj⟩ => hnm ⟨r, by simp [hr], hrj⟩)]
    exact getD_set_ne b q.1 j q.2 (fun hc => hnm ⟨q, by simp, hc⟩)

theorem undoAll_getD_mem (saved : List (Nat × Int)) (b : List Int) (j : Nat)
    (hz : ∀ q ∈ saved, q.2 = 0) (hmem : ∃ q ∈ saved, q.1 = j) :
    (undoAll saved b).getD j 0 = 0 := by
  induction saved generalizing b with
  | nil => exact absurd hmem (by simp)
  | cons q rest ih =>
    rw [undoAll_cons]
    by_cases hq : ∃ r ∈ rest, r.1 = j
    · exact ih (b.set q.1 q.2) (fun r hr => hz r (by simp [hr])) hq
    · have hqj : q.1 = j := by
        rcases hmem with ⟨r, hr, hrj⟩
        rcases List.mem_cons.mp hr with h1 | h1
        · rw [← h1]; exact hrj
        · exact absurd ⟨r, h1, hrj⟩ hq
      rw [undoAll_getD_not_mem rest (b.set q.1 q.2) j hq]
      have hq0 : q.2 = 0 := hz q (by simp)
      rw [hqj, hq0]
      by_cases hlt : j < b.length
      · exact getD_set_self b j 0 hlt
      · rw [List.set_eq_of_length_le (Nat.le_of_not_lt hlt)]
        exact getD_of_length_le b j (Nat.le_of_not_lt hlt)

/-! Lemmas about the undo-list invariant. -/

theorem savedInv_nil (a : List Int) : SavedInv a [] a := by
  refine ⟨rfl, by simp, by simp, fun j _ => rfl⟩

theorem savedInv_step (a0 : List Int) (saved : List (Nat × Int)) (cur : List Int)
    (j : Nat) (v : Int) (h : SavedInv a0 saved cur) (hj : cur.getD j 0 = 0) :
    SavedInv a0 (saved ++ [(j, (0 : Int))]) (cur.set j v) := by
  obtain ⟨hlen, hz, hrec, hrest⟩ := h
  refine ⟨by rw [List.length_set]; exact hlen, ?_, ?_, ?_⟩
  · intro q hq
    rcases List.mem_append.mp hq with h1 | h1
    · exact hz q h1
    · simp at h1; rw [h1]
  · intro k hk
    rcases hk with ⟨q, hq, hqk⟩
    rcases List.mem_append.mp hq with h1 | h1
    · exact hrec k ⟨q, h1, hqk⟩
    · simp at h1
      subst h1
      simp at hqk
      rw [← hqk]
      by_cases hmem : ∃ q ∈ saved, q.1 = j
      · exact hrec j hmem
      · rw [← hrest j hmem]; exact hj
  · intro k hk
    have hk1 : ¬∃ q ∈ saved, q.1 = k := by
      intro ⟨q, hq, hqk⟩
      exact hk ⟨q, List.mem_append.mpr (Or.inl hq), hqk⟩
    have hk2 : j ≠ k := by
      intro hc
      exact hk ⟨(j, 0), List.mem_append.mpr (Or.inr (by simp)), hc⟩
    rw [getD_set_ne cur j k v hk2]
    exact hrest k hk1

theorem savedInv_undo (a0 : List Int) (saved : List (Nat × Int)) (cur : List Int)
    (h : SavedInv a0 saved cur) : undoAll saved cur = a0 := by
  obtain ⟨hlen, hz, hrec, hrest⟩ := h
  refine list_ext_getD _ _ (by rw [length_undoAll]; exact hlen) ?_
  intro j
  by_cases hmem : ∃ q ∈ saved, q.1 = j
  · rw [undoAll_getD_mem saved cur j hz hmem, hrec j hmem]
  · rw [undoAll_getD_not_mem saved cur j hmem, hrest j hmem]

/-! Counting helpers used by the unit-clause characterisation. -/

theorem two_le_length_of_mem_ne (l : List Int) (x y : Int) (hx : x ∈ l) (hy : y ∈ l)
    (hne : x ≠ y) : 2 ≤ l.length := by
  have hy2 : y ∈ l.erase x := List.mem_erase_of_ne (fun h => hne h.symm) |>.mpr hy
  have h1 : 0 < (l.erase x).length := List.length_pos.mpr (List.ne_nil_of_mem hy2)
  have h2 : (l.erase x).length = l.length - 1 := List.length_erase_of_mem hx
  omega

theorem countP_one_unique (l : List Int) (pr : Int → Bool) (h : l.countP pr = 1)
    (x y : Int) (hx : x ∈ l) (hpx : pr x = true) (hy : y ∈ l) (hpy : pr y = true) :
    x = y := by
  by_contra hne
  have hxf : x ∈ l.filter pr := List.mem_filter.mpr ⟨hx, hpx⟩
  have hyf : y ∈ l.filter pr := List.mem_filter.mpr ⟨hy, hpy⟩
  have := two_le_length_of_mem_ne (l.filter pr) x y hxf hyf hne
  rw [← List.countP_eq_length_filter] at this
  omega

/-! Characterisation of `clauseFalsified` and `checkConflict`. -/

theorem litSatisfied_eq_of_getD_eq (a b : List Int) (l : Int)
    (h : a.getD (l.natAbs - 1) 0 = b.getD (l.natAbs - 1) 0) :
    litSatisfied a l = litSatisfied b l := by
  simp only [litSatisfied, litValue, h]

theorem clauseFalsified_iff (a : List Int) (c : List Int) :
    clauseFalsified a c = true ↔
      ∀ l ∈ c, l.natAbs ≤ a.length ∧ litValue a l ≠ 0 ∧ litSatisfied a l = false := by
  induction c with
  | nil => simp [clauseFalsified]
  | cons x rest ih =>
    simp only [clauseFalsified, List.mem_cons]
    by_cases h1 : a.length < x.natAbs
    · rw [if_pos h1]
      constructor
      · intro h; exact absurd h Bool.false_ne_true
      · intro h
        have := (h x (Or.inl rfl)).1
        omega
    · rw [if_neg h1]
      by_cases h2 : litValue a x = 0
      · rw [if_pos (by simpa using h2)]
        constructor
        · intro h; exact absurd h Bool.false_ne_true
        · intro h; exact absurd h2 (h x (Or.inl rfl)).2.1
      · rw [if_neg (by simpa using h2)]
        by_cases h3 : litSatisfied a x = true
        · rw [if_pos h3]
          constructor
          · intro h; exact absurd h Bool.false_ne_true
          · intro h
            have := (h x (Or.inl rfl)).2.2
            rw [h3] at this
            exact absurd this.symm Bool.false_ne_true
        · rw [if_neg h3, ih]
          constructor
          · intro h l hl
            rcases hl with hl | hl
            · subst hl
              exact ⟨Nat.le_of_not_lt h1, h2, Bool.eq_false_iff.mpr h3⟩
            · exact h l hl
          · intro h l hl
            exact h l (Or.inr hl)

theorem checkConflict_iff (p : SATproblem) (a : List Int) :
    checkConflict p a = true ↔ ∃ c ∈ p.clauses, clauseFalsified a c = true := by
  simp [checkConflict, List.any_eq_true]

theorem clauseSatisfied_false_iff (a : List Int) (c : List Int) :
    clauseSatisfied a c = false ↔ ∀ l ∈ c, litSatisfied a l = false := by
  simp [clauseSatisfied]

theorem falsified_not_sat (a σ : List Int) (c : List Int)
    (hf : clauseFalsified a c = true) (hag : Agrees σ a) :
    ¬∃ l ∈ c, litSatisfied σ l = true := by
  intro hex
  obtain ⟨l, hl, hsat⟩ := hex
  have h := (clauseFalsified_iff a c).mp hf l hl
  have heq : σ.getD (l.natAbs - 1) 0 = a.getD (l.natAbs - 1) 0 := hag _ h.2.1
  rw [litSatisfied_eq_of_getD_eq σ a l heq, h.2.2] at hsat
  exact absurd hsat Bool.false_ne_true

theorem conflict_not_sat (p : SATproblem) (a σ : List Int)
    (hc : checkConflict p a = true) (hag : Agrees σ a) (hs : Satisfies σ p) : False := by
  obtain ⟨c, hcm, hcf⟩ := (checkConflict_iff p a).mp hc
  exact falsified_not_sat a σ c hcf hag (hs c hcm)

theorem not_falsified_total_sat (a : List Int) (c : List Int)
    (hf : clauseFalsified a c = false)
    (hrange : ∀ l ∈ c, 1 ≤ l.natAbs ∧ l.natAbs ≤ a.length)
    (htot : ∀ j, j < a.length → a.getD j 0 ≠ 0) :
    ∃ l ∈ c, litSatisfied a l = true := by
  induction c with
  | nil => simp [clauseFalsified] at hf
  | cons x rest ih =>
    simp only [clauseFalsified] at hf
    have hx := hrange x (by simp)
    rw [if_neg (by omega)] at hf
    have hval : litValue a x ≠ 0 := htot (x.natAbs - 1) (by omega)
    rw [if_neg (by simpa using hval)] at hf
    by_cases h3 : litSatisfied a x = true
    · exact ⟨x, by simp, h3⟩
    · rw [if_neg h3] at hf
      obtain ⟨l, hl, hsat⟩ := ih hf (fun l hl => hrange l (by simp [hl]))
      exact ⟨l, by simp [hl], hsat⟩

/-! Characterisation of the unit-clause scan. -/

theorem unitScan_some_iff (a : List Int) (c : List Int) :
    ∀ u l : Int, (∀ x ∈ c, x ≠ 0) →
      (unitScan a c u = some l ↔
        (∀ x ∈ c, litSatisfied a x = false) ∧
          ((u ≠ 0 ∧ (∀ x ∈ c, litValue a x ≠ 0) ∧ l = u) ∨
            (u = 0 ∧ l ∈ c ∧ litValue a l = 0 ∧
              c.countP (fun x => litValue a x == 0) = 1))) := by
  induction c with
  | nil =>
    intro u l _
    show (if u ≠ 0 then some u else none) = some l ↔ _
    by_cases hu : u ≠ 0
    · rw [if_pos hu]
      constructor
      · intro h
        exact ⟨by simp, Or.inl ⟨hu, by simp, (Option.some.inj h).symm⟩⟩
      · intro h
        rcases h.2 with h2 | h2
        · rw [h2.2.2]
        · exact absurd h2.2.1 (List.not_mem_nil l)
    · rw [if_neg hu]
      push_neg at hu
      constructor
      · intro h; exact absurd h (by simp)
      · intro h
        rcases h.2 with h2 | h2
        · exact absurd hu h2.1
        · exact absurd h2.2.1 (List.not_mem_nil l)
  | cons x rest ih =>
    intro u l h0
    have hx0 : x ≠ 0 := h0 x (by simp)
    have hrest0 : ∀ y ∈ rest, y ≠ 0 := fun y hy => h0 y (by simp [hy])
    simp only [unitScan]
    by_cases hsat : litSatisfied a x = true
    · rw [if_pos hsat]
      constructor
      · intro h; exact absurd h (by simp)
      · intro h
        have := h.1 x (by simp)
        rw [hsat] at this
        exact absurd this.symm Bool.false_ne_true
    · rw [if_neg hsat]
      have hsatf : litSatisfied a x = false := Bool.eq_false_iff.mpr hsat
      by_cases hval : litValue a x = 0
      · rw [if_pos (by simpa using hval)]
        by_cases hu : u ≠ 0
        · rw [if_pos hu]
          constructor
          · intro h; exact absurd h (by simp)
          · intro h
            rcases h.2 with ⟨_, hall, _⟩ | ⟨hu0, _, _⟩
            · exact absurd hval (hall x (by simp))
            · exact absurd hu0 hu
        · rw [if_neg hu]
          push_neg at hu
          rw [ih x l hrest0]
          have hcount : (x :: rest).countP (fun y => litValue a y == 0) =
              rest.countP (fun y => litValue a y == 0) + 1 := by
            rw [List.countP_cons_of_pos]
            simpa using hval
          constructor
          · intro h
            rcases h.2 with ⟨_, hall, hlx⟩ | ⟨hx00, _, _⟩
            · subst hlx
              refine ⟨?_, Or.inr ⟨hu, by simp, hval, ?_⟩⟩
              · intro y hy
                rcases List.mem_cons.mp hy with h1 | h1
                · rw [h1]; exact hsatf
                · exact h.1 y h1
              · rw [hcount]
                have hz : rest.countP (fun y => litValue a y == 0) = 0 := by
                  rw [List.countP_eq_zero]
                  intro y hy
                  simpa using hall y hy
                omega
            · exact absurd hx00 hx0
          · intro h
            rcases h.2 with ⟨hu2, _, _⟩ | ⟨_, hlm, hlv, hcnt⟩
            · exact absurd hu hu2
            · have hrest_sat : ∀ y ∈ rest, litSatisfied a y = false :=
                fun y hy => h.1 y (by simp [hy])
              have hcnt0 : rest.countP (fun y => litValue a y == 0) = 0 := by
                rw [hcount] at hcnt; omega
              have hall : ∀ y ∈ rest, litValue a y ≠ 0 := by
                rw [List.countP_eq_zero] at hcnt0
                intro y hy
                simpa using hcnt0 y hy
              have hlx : l = x := by
                rcases List.mem_cons.mp hlm with h1 | h1
                · exact h1
                · exact absurd hlv (hall l h1)
              exact ⟨hrest_sat, Or.inl ⟨hx0, hall, hlx⟩⟩
      · rw [if_neg (by simpa using hval)]
        rw [ih u l hrest0]
        have hcount : (x :: rest).countP (fun y => litValue a y == 0) =
            rest.countP (fun y => litValue a y == 0) := by
          rw [List.countP_cons_of_neg]
          simpa using hval
        constructor
        · intro h
          refine ⟨fun y hy => ?_, ?_⟩
          · rcases List.mem_cons.mp hy with h1 | h1
            · rw [h1]; exact hsatf
            · exact h.1 y h1
          · rcases h.2 with ⟨hu2, hall, hlx⟩ | ⟨hu0, hlm, hlv, hcnt⟩
            · refine Or.inl ⟨hu2, fun y hy => ?_, hlx⟩
              rcases List.mem_cons.mp hy with h1 | h1
              · rw [h1]; exact hval
              · exact hall y h1
            · exact Or.inr ⟨hu0, by simp [hlm], hlv, by rw [hcount]; exact hcnt⟩
        · intro h
          refine ⟨fun y hy => h.1 y (by simp [hy]), ?_⟩
          rcases h.2 with ⟨hu2, hall, hlx⟩ | ⟨hu0, hlm, hlv, hcnt⟩
          · exact Or.inl ⟨hu2, fun y hy => hall y (by simp [hy]), hlx⟩
          · have hlm2 : l ∈ rest := by
              rcases List.mem_cons.mp hlm with h1 | h1
              · rw [h1] at hlv; exact absurd hlv hval
              · exact h1
            exact Or.inr ⟨hu0, hlm2, hlv, by rw [← hcount]; exact hcnt⟩

/-- Membership characterisation of `findUnitClauses`: a literal is returned
iff some stored clause has no satisfied literal and exactly one literal (of the
clause's literal occurrences) whose variable is unassigned, namely that one. -/
theorem mem_findUnitClauses (p : SATproblem) (a : List Int) (l : Int)
    (h0 : ∀ c ∈ p.clauses, ∀ x ∈ c, x ≠ 0) :
    l ∈ findUnitClauses p a ↔
      ∃ c ∈ p.clauses, (∀ x ∈ c, litSatisfied a x = false) ∧ l ∈ c ∧
        litValue a l = 0 ∧ c.countP (fun x => litValue a x == 0) = 1 := by
  rw [findUnitClauses, List.mem_filterMap]
  constructor
  · intro h
    obtain ⟨c, hc, hscan⟩ := h
    rw [unitScan_some_iff a c 0 l (h0 c hc)] at hscan
    rcases hscan.2 with ⟨hne, _, _⟩ | ⟨_, hlm, hlv, hcnt⟩
    · exact absurd rfl hne
    · exact ⟨c, hc, hscan.1, hlm, hlv, hcnt⟩
  · intro h
    obtain ⟨c, hc, hns, hlm, hlv, hcnt⟩ := h
    refine ⟨c, hc, ?_⟩
    rw [unitScan_some_iff a c 0 l (h0 c hc)]
    exact ⟨hns, Or.inr ⟨rfl, hlm, hlv, hcnt⟩⟩

/-! Characterisation of the pure-literal computation. -/

theorem posAppears_iff (p : SATproblem) (a : List Int) (v : Nat) :
    posAppears p a v = true ↔ PosOcc p a v := by
  rw [posAppears, List.any_eq_true]
  constructor
  · intro h
    obtain ⟨c, hc, hb⟩ := h
    rw [Bool.and_eq_true, Bool.not_eq_true'] at hb
    obtain ⟨hns, hany⟩ := hb
    rw [List.any_eq_true] at hany
    obtain ⟨x, hx, hxb⟩ := hany
    simp only [Bool.and_eq_true, decide_eq_true_eq, beq_iff_eq] at hxb
    exact ⟨c, hc, (clauseSatisfied_false_iff a c).mp hns, x, hx, hxb.1.1, hxb.1.2, hxb.2⟩
  · intro h
    obtain ⟨c, hc, hns, x, hx, hpos, hv, hval⟩ := h
    refine ⟨c, hc, ?_⟩
    rw [Bool.and_eq_true, Bool.not_eq_true']
    refine ⟨(clauseSatisfied_false_iff a c).mpr hns, ?_⟩
    rw [List.any_eq_true]
    refine ⟨x, hx, ?_⟩
    simp only [Bool.and_eq_true, decide_eq_true_eq, beq_iff_eq]
    exact ⟨⟨hpos, hv⟩, hval⟩

theorem negAppears_iff (p : SATproblem) (a : List Int) (v : Nat) :
    negAppears p a v = true ↔ NegOcc p a v := by
  rw [negAppears, List.any_eq_true]
  constructor
  · intro h
    obtain ⟨c, hc, hb⟩ := h
    rw [Bool.and_eq_true, Bool.not_eq_true'] at hb
    obtain ⟨hns, hany⟩ := hb
    rw [List.any_eq_true] at hany
    obtain ⟨x, hx, hxb⟩ := hany
    simp only [Bool.and_eq_true, decide_eq_true_eq, beq_iff_eq] at hxb
    exact ⟨c, hc, (clauseSatisfied_false_iff a c).mp hns, x, hx, hxb.1.1, hxb.1.2, hxb.2⟩
  · intro h
    obtain ⟨c, hc, hns, x, hx, hneg, hv, hval⟩ := h
    refine ⟨c, hc, ?_⟩
    rw [Bool.and_eq_true, Bool.not_eq_true']
    refine ⟨(clauseSatisfied_false_iff a c).mpr hns, ?_⟩
    rw [List.any_eq_true]
    refine ⟨x, hx, ?_⟩
    simp only [Bool.and_eq_true, decide_eq_true_eq, beq_iff_eq]
    exact ⟨⟨hneg, hv⟩, hval⟩

theorem mem_findPureLiterals (p : SATproblem) (a : List Int) (l : Int) :
    l ∈ findPureLiterals p a ↔ PureCondP p a l := by
  rw [findPureLiterals, List.mem_filterMap]
  constructor
  · intro h
    obtain ⟨v, hv, heq⟩ := h
    rw [List.mem_range'_1] at hv
    by_cases h1 : a.getD (v - 1) 0 = 0
    · rw [if_pos (by simpa using h1)] at heq
      by_cases h2 : posAppears p a v = true ∧ negAppears p a v = false
      · rw [if_pos (by simp [h2.1, h2.2])] at heq
        have hl : l = Int.ofNat v := (Option.some.inj heq).symm
        have hna : l.natAbs = v := by rw [hl]; simp
        refine ⟨by omega, by omega, by rw [hna]; exact h1, Or.inl ⟨?_, ?_, ?_⟩⟩
        · rw [hl]; exact Int.ofNat_pos.mpr (by omega)
        · rw [hna]; exact (posAppears_iff p a v).mp h2.1
        · rw [hna]
          intro hc
          rw [← negAppears_iff p a v] at hc
          rw [h2.2] at hc
          exact absurd hc Bool.false_ne_true
      · have h2' : ¬(posAppears p a v && !negAppears p a v) = true := by
          intro hc
          rw [Bool.and_eq_true, Bool.not_eq_true'] at hc
          exact h2 hc
        rw [if_neg h2'] at heq
        by_cases h3 : posAppears p a v = false ∧ negAppears p a v = true
        · rw [if_pos (by simp [h3.1, h3.2])] at heq
          have hl : l = -(Int.ofNat v) := (Option.some.inj heq).symm
          have hna : l.natAbs = v := by rw [hl]; simp
          refine ⟨by omega, by omega, by rw [hna]; exact h1, Or.inr ⟨?_, ?_, ?_⟩⟩
          · rw [hl]
            have h5 : (0 : Int) < Int.ofNat v := Int.ofNat_pos.mpr (by omega)
            omega
          · rw [hna]; exact (negAppears_iff p a v).mp h3.2
          · rw [hna]
            intro hc
            rw [← posAppears_iff p a v] at hc
            rw [h3.1] at hc
            exact absurd hc Bool.false_ne_true
        · have h3' : ¬(!posAppears p a v && negAppears p a v) = true := by
            intro hc
            rw [Bool.and_eq_true, Bool.not_eq_true'] at hc
            exact h3 ⟨hc.1, hc.2⟩
          rw [if_neg h3'] at heq
          exact absurd heq (by simp)
    · rw [if_neg (by simpa using h1)] at heq
      exact absurd heq (by simp)
  · intro h
    obtain ⟨hge, hle, hun, hd⟩ := h
    refine ⟨l.natAbs, List.mem_range'_1.mpr ⟨hge, by omega⟩, ?_⟩
    rw [if_pos (by simpa using hun)]
    rcases hd with ⟨hpos, hP, hnN⟩ | ⟨hneg, hN, hnP⟩
    · have hPb : posAppears p a l.natAbs = true := (posAppears_iff p a l.natAbs).mpr hP
      have hNb : negAppears p a l.natAbs = false := by
        rw [Bool.eq_false_iff]
        intro hc
        exact hnN ((negAppears_iff p a l.natAbs).mp hc)
      rw [if_pos (by simp [hPb, hNb])]
      congr 1
      show ((l.natAbs : Int)) = l
      omega
    · have hNb : negAppears p a l.natAbs = true := (negAppears_iff p a l.natAbs).mpr hN
      have hPb : posAppears p a l.natAbs = false := by
        rw [Bool.eq_false_iff]
        intro hc
        exact hnP ((posAppears_iff p a l.natAbs).mp hc)
      rw [if_neg (by simp [hPb]), if_pos (by simp [hPb, hNb])]
      congr 1
      show -((l.natAbs : Int)) = l
      omega

theorem pairwise_filterMap_natAbs (f : Nat → Option Int) (l : List Nat)
    (hf : ∀ v b, f v = some b → b.natAbs = v) (hp : List.Pairwise (· < ·) l) :
    List.Pairwise (fun x y : Int => x.natAbs < y.natAbs) (l.filterMap f) := by
  induction l with
  | nil => simp
  | cons v rest ih =>
    rcases hrest : f v with _ | b
    · simp only [List.filterMap_cons, hrest]
      exact ih (List.Pairwise.of_cons hp)
    · simp only [List.filterMap_cons, hrest]
      rw [List.pairwise_cons]
      refine ⟨?_, ih (List.Pairwise.of_cons hp)⟩
      intro y hy
      rw [List.mem_filterMap] at hy
      obtain ⟨w, hw, hfw⟩ := hy
      rw [hf v b hrest, hf w y hfw]
      exact (List.pairwise_cons.mp hp).1 w hw

theorem findPureLiterals_pairwise (p : SATproblem) (a : List Int) :
    List.Pairwise (fun x y : Int => x.natAbs < y.natAbs) (findPureLiterals p a) := by
  rw [findPureLiterals]
  refine pairwise_filterMap_natAbs _ _ ?_ (List.pairwise_lt_range' 1 p.numVars)
  intro v b hb
  by_cases h1 : a.getD (v - 1) 0 = 0
  · rw [if_pos (by simpa using h1)] at hb
    by_cases h2 : (posAppears p a v && !negAppears p a v) = true
    · rw [if_pos h2] at hb
      rw [← Option.some.inj hb]
      simp
    · rw [if_neg h2] at hb
      by_cases h3 : (!posAppears p a v && negAppears p a v) = true
      · rw [if_pos h3] at hb
        rw [← Option.some.inj hb]
        simp
      · rw [if_neg h3] at hb
        exact absurd hb (by simp)
  · rw [if_neg (by simpa using h1)] at hb
    exact absurd hb (by simp)

/-! Lemmas about `overrideL` and the two propagation loops. -/

theorem overrideL_nil (b : List Int) : overrideL [] b = b := rfl

theorem overrideL_cons (l : Int) (L : List Int) (b : List Int) :
    overrideL (l :: L) b = overrideL L (b.set (l.natAbs - 1) (if 0 < l then 1 else -1)) := rfl

theorem length_overrideL (L : List Int) (b : List Int) :
    (overrideL L b).length = b.length := by
  induction L generalizing b with
  | nil => rfl
  | cons l rest ih => rw [overrideL_cons, ih, List.length_set]

theorem overrideL_getD_not_mem (L : List Int) (b : List Int) (j : Nat)
    (h : ∀ l ∈ L, j ≠ l.natAbs - 1) : (overrideL L b).getD j 0 = b.getD j 0 := by
  induction L generalizing b with
  | nil => rfl
  | cons l rest ih =>
    rw [overrideL_cons, ih _ (fun x hx => h x (by simp [hx]))]
    exact getD_set_ne _ _ _ _ (fun hc => h l (by simp) hc.symm)

theorem overrideL_getD_mem (L : List Int) (b : List Int) (l : Int)
    (hmem : l ∈ L) (hone : ∀ x ∈ L, 1 ≤ x.natAbs)
    (hpw : List.Pairwise (fun x y : Int => x.natAbs < y.natAbs) L)
    (hlt : l.natAbs - 1 < b.length) :
    (overrideL L b).getD (l.natAbs - 1) 0 = (if 0 < l then 1 else -1) := by
  induction L generalizing b with
  | nil => exact absurd hmem (List.not_mem_nil l)
  | cons x rest ih =>
    rw [overrideL_cons]
    rcases List.mem_cons.mp hmem with h1 | h1
    · subst h1
      rw [overrideL_getD_not_mem]
      · exact getD_set_self b _ _ hlt
      · intro y hy hc
        have hxy : l.natAbs < y.natAbs := (List.pairwise_cons.mp hpw).1 y hy
        have h1y : 1 ≤ l.natAbs := hone l (by simp)
        omega
    · exact ih (b.set (x.natAbs - 1) (if 0 < x then 1 else -1)) h1
        (fun y hy => hone y (by simp [hy])) (List.Pairwise.of_cons hpw)
        (by rw [List.length_set]; exact hlt)

theorem wfVals_set (a : List Int) (j : Nat) (v : Int) (hv : v = 1 ∨ v = -1)
    (h : WfVals a) : WfVals (a.set j v) := by
  intro k
  by_cases hk : j = k
  · subst hk
    by_cases hlt : j < a.length
    · rw [getD_set_self a j v hlt]
      rcases hv with h1 | h1
      · exact Or.inr (Or.inl h1)
      · exact Or.inr (Or.inr h1)
    · rw [List.set_eq_of_length_le (Nat.le_of_not_lt hlt)]
      exact h j
  · rw [getD_set_ne a j k v hk]
    exact h k

theorem agrees_set (σ cur : List Int) (j : Nat) (v : Int) (hag : Agrees σ cur)
    (hv : σ.getD j 0 = v) : Agrees σ (cur.set j v) := by
  intro k hk
  by_cases hjk : j = k
  · subst hjk
    by_cases hlt : j < cur.length
    · rw [getD_set_self cur j v hlt] at hk ⊢
      exact hv
    · rw [List.set_eq_of_length_le (Nat.le_of_not_lt hlt)] at hk ⊢
      exact hag j hk
  · rw [getD_set_ne cur j k v hjk] at hk ⊢
    exact hag k hk

theorem litSatisfied_value (σ : List Int) (x : Int) (hsat : litSatisfied σ x = true)
    (hw : ∀ j, j < σ.length → (σ.getD j 0 = 1 ∨ σ.getD j 0 = -1))
    (hlt : x.natAbs - 1 < σ.length) :
    σ.getD (x.natAbs - 1) 0 = (if 0 < x then 1 else -1) := by
  simp only [litSatisfied, litValue, Bool.or_eq_true, Bool.and_eq_true,
    decide_eq_true_eq] at hsat
  by_cases hx : 0 < x
  · rw [if_pos hx]
    rcases hsat with ⟨_, hv⟩ | ⟨hx2, _⟩
    · rcases hw _ hlt with h1 | h1
      · exact h1
      · omega
    · omega
  · rw [if_neg hx]
    rcases hsat with ⟨hx2, _⟩ | ⟨_, hv⟩
    · omega
    · rcases hw _ hlt with h1 | h1
      · omega
      · exact h1

theorem pureLoop_eq_overrideL (L : List Int) (saved : List (Nat × Int)) (cur : List Int)
    (h0 : ∀ l ∈ L, cur.getD (l.natAbs - 1) 0 = 0)
    (hone : ∀ l ∈ L, 1 ≤ l.natAbs)
    (hpw : List.Pairwise (fun x y : Int => x.natAbs < y.natAbs) L) :
    pureLoop L saved cur =
      (overrideL L cur, saved ++ L.map fun l => (l.natAbs - 1, (0 : Int))) := by
  induction L generalizing saved cur with
  | nil => simp [pureLoop, overrideL_nil]
  | cons x rest ih =>
    simp only [pureLoop]
    rw [if_pos (by simpa using h0 x (by simp))]
    rw [ih _ _ ?_ (fun y hy => hone y (by simp [hy])) (List.Pairwise.of_cons hpw)]
    · rw [overrideL_cons]
      simp
    · intro y hy
      rw [getD_set_ne]
      · exact h0 y (by simp [hy])
      · intro hc
        have h2 := (List.pairwise_cons.mp hpw).1 y hy
        have h3 := hone x (by simp)
        omega

theorem pureLoop_savedInv (a0 : List Int) (L : List Int) (saved : List (Nat × Int))
    (cur : List Int) (h : SavedInv a0 saved cur) :
    SavedInv a0 (pureLoop L saved cur).2 (pureLoop L saved cur).1 := by
  induction L generalizing saved cur with
  | nil => exact h
  | cons x rest ih =>
    simp only [pureLoop]
    by_cases h1 : cur.getD (x.natAbs - 1) 0 = 0
    · rw [if_pos (by simpa using h1)]
      exact ih _ _ (savedInv_step a0 saved cur _ _ h h1)
    · rw [if_neg (by simpa using h1)]
      exact ih _ _ h

theorem pureLoop_length (L : List Int) (saved : List (Nat × Int)) (cur : List Int) :
    (pureLoop L saved cur).1.length = cur.length := by
  induction L generalizing saved cur with
  | nil => rfl
  | cons x rest ih =>
    simp only [pureLoop]
    by_cases h1 : cur.getD (x.natAbs - 1) 0 = 0
    · rw [if_pos (by simpa using h1)]
      rw [ih _ _, List.length_set]
    · rw [if_neg (by simpa using h1)]
      exact ih _ _

theorem pureLoop_getD_preserved (L : List Int) (saved : List (Nat × Int)) (cur : List Int)
    (j : Nat) (hj : cur.getD j 0 ≠ 0) :
    (pureLoop L saved cur).1.getD j 0 = cur.getD j 0 := by
  induction L generalizing saved cur with
  | nil => rfl
  | cons x rest ih =>
    simp only [pureLoop]
    by_cases h1 : cur.getD (x.natAbs - 1) 0 = 0
    · rw [if_pos (by simpa using h1)]
      have hne : x.natAbs - 1 ≠ j := by
        intro hc
        rw [hc] at h1
        exact hj h1
      rw [ih _ _ (by rw [getD_set_ne _ _ _ _ hne]; exact hj), getD_set_ne _ _ _ _ hne]
    · rw [if_neg (by simpa using h1)]
      exact ih _ _ hj

theorem pureLoop_wf (L : List Int) (saved : List (Nat × Int)) (cur : List Int)
    (h : WfVals cur) : WfVals (pureLoop L saved cur).1 := by
  induction L generalizing saved cur with
  | nil => exact h
  | cons x rest ih =>
    simp only [pureLoop]
    by_cases h1 : cur.getD (x.natAbs - 1) 0 = 0
    · rw [if_pos (by simpa using h1)]
      refine ih _ _ (wfVals_set cur _ _ ?_ h)
      by_cases hx : 0 < x
      · rw [if_pos hx]; exact Or.inl rfl
      · rw [if_neg hx]; exact Or.inr rfl
    · rw [if_neg (by simpa using h1)]
      exact ih _ _ h

/-! Lemmas about the unit-propagation loop. -/

theorem unitLoop_savedInv (p : SATproblem) (a0 : List Int) (lits : List Int)
    (saved : List (Nat × Int)) (cur : List Int) (h : SavedInv a0 saved cur) :
    ((unitLoop p lits saved cur).1 = true → (unitLoop p lits saved cur).2.1 = a0) ∧
      ((unitLoop p lits saved cur).1 = false →
        SavedInv a0 (unitLoop p lits saved cur).2.2 (unitLoop p lits saved cur).2.1) := by
  induction lits generalizing saved cur with
  | nil => exact ⟨fun hc => absurd hc Bool.false_ne_true, fun _ => h⟩
  | cons x rest ih =>
    simp only [unitLoop]
    by_cases h1 : cur.getD (x.natAbs - 1) 0 = 0
    · rw [if_pos (by simpa using h1)]
      by_cases h2 :
          checkConflict p (cur.set (x.natAbs - 1) (if 0 < x then 1 else -1)) = true
      · rw [if_pos h2]
        exact ⟨fun _ => savedInv_undo a0 _ _ (savedInv_step a0 saved cur _ _ h h1),
          fun hc => absurd hc.symm Bool.false_ne_true⟩
      · rw [if_neg h2]
        exact ih _ _ (savedInv_step a0 saved cur _ _ h h1)
    · rw [if_neg (by simpa using h1)]
      exact ih _ _ h

theorem unitLoop_noConflict (p : SATproblem) (lits : List Int) (saved : List (Nat × Int))
    (cur : List Int) (hcc : checkConflict p cur = false) :
    (unitLoop p lits saved cur).1 = false →
      checkConflict p (unitLoop p lits saved cur).2.1 = false := by
  induction lits generalizing saved cur with
  | nil => intro _; exact hcc
  | cons x rest ih =>
    simp only [unitLoop]
    by_cases h1 : cur.getD (x.natAbs - 1) 0 = 0
    · rw [if_pos (by simpa using h1)]
      by_cases h2 :
          checkConflict p (cur.set (x.natAbs - 1) (if 0 < x then 1 else -1)) = true
      · rw [if_pos h2]
        intro hc
        exact absurd hc.symm Bool.false_ne_true
      · rw [if_neg h2]
        exact ih _ _ (Bool.eq_false_iff.mpr h2)
    · rw [if_neg (by simpa using h1)]
      exact ih _ _ hcc

theorem unitLoop_length (p : SATproblem) (lits : List Int) (saved : List (Nat × Int))
    (cur : List Int) :
    (unitLoop p lits saved cur).1 = false →
      (unitLoop p lits saved cur).2.1.length = cur.length := by
  induction lits generalizing saved cur with
  | nil => intro _; rfl
  | cons x rest ih =>
    simp only [unitLoop]
    by_cases h1 : cur.getD (x.natAbs - 1) 0 = 0
    · rw [if_pos (by simpa using h1)]
      by_cases h2 :
          checkConflict p (cur.set (x.natAbs - 1) (if 0 < x then 1 else -1)) = true
      · rw [if_pos h2]
        intro hc
        exact absurd hc.symm Bool.false_ne_true
      · rw [if_neg h2]
        intro hf
        rw [ih _ _ hf, List.length_set]
    · rw [if_neg (by simpa using h1)]
      exact ih _ _

theorem unitLoop_getD_preserved (p : SATproblem) (lits : List Int)
    (saved : List (Nat × Int)) (cur : List Int) (j : Nat) (hj : cur.getD j 0 ≠ 0) :
    (unitLoop p lits saved cur).1 = false →
      (unitLoop p lits saved cur).2.1.getD j 0 = cur.getD j 0 := by
  induction lits generalizing saved cur with
  | nil => intro _; rfl
  | cons x rest ih =>
    simp only [unitLoop]
    by_cases h1 : cur.getD (x.natAbs - 1) 0 = 0
    · rw [if_pos (by simpa using h1)]
      by_cases h2 :
          checkConflict p (cur.set (x.natAbs - 1) (if 0 < x then 1 else -1)) = true
      · rw [if_pos h2]
        intro hc
        exact absurd hc.symm Bool.false_ne_true
      · rw [if_neg h2]
        intro hf
        have hne : x.natAbs - 1 ≠ j := by
          intro hc
          rw [hc] at h1
          exact hj h1
        rw [ih _ _ (by rw [getD_set_ne _ _ _ _ hne]; exact hj) hf,
          getD_set_ne _ _ _ _ hne]
    · rw [if_neg (by simpa using h1)]
      exact ih _ _ hj

theorem unitLoop_wf (p : SATproblem) (lits : List Int) (saved : List (Nat × Int))
    (cur : List Int) (h : WfVals cur) :
    (unitLoop p lits saved cur).1 = false → WfVals (unitLoop p lits saved cur).2.1 := by
  induction lits generalizing saved cur with
  | nil => intro _; exact h
  | cons x rest ih =>
    simp only [unitLoop]
    by_cases h1 : cur.getD (x.natAbs - 1) 0 = 0
    · rw [if_pos (by simpa using h1)]
      by_cases h2 :
          checkConflict p (cur.set (x.natAbs - 1) (if 0 < x then 1 else -1)) = true
      · rw [if_pos h2]
        intro hc
        exact absurd hc.symm Bool.false_ne_true
      · rw [if_neg h2]
        refine ih _ _ (wfVals_set cur _ _ ?_ h)
        by_cases hx : 0 < x
        · rw [if_pos hx]; exact Or.inl rfl
        · rw [if_neg hx]; exact Or.inr rfl
    · rw [if_neg (by simpa using h1)]
      exact ih _ _ h

theorem unitLoop_agrees (p : SATproblem) (σ : List Int) (hs : Satisfies σ p)
    (hw : ∀ j, j < σ.length → (σ.getD j 0 = 1 ∨ σ.getD j 0 = -1)) :
    ∀ lits saved cur, (∀ l ∈ lits, litSatisfied σ l = true) →
      (∀ l ∈ lits, 1 ≤ l.natAbs ∧ l.natAbs ≤ σ.length) →
      Agrees σ cur →
      ((unitLoop p lits saved cur).1 = true → False) ∧
        ((unitLoop p lits saved cur).1 = false →
          Agrees σ (unitLoop p lits saved cur).2.1) := by
  intro lits
  induction lits with
  | nil =>
    intro saved cur _ _ hag
    exact ⟨fun hc => absurd hc Bool.false_ne_true, fun _ => hag⟩
  | cons x rest ih =>
    intro saved cur hforced hrange hag
    simp only [unitLoop]
    by_cases h1 : cur.getD (x.natAbs - 1) 0 = 0
    · rw [if_pos (by simpa using h1)]
      have hxr := hrange x (by simp)
      have hxval : σ.getD (x.natAbs - 1) 0 = (if 0 < x then 1 else -1) :=
        litSatisfied_value σ x (hforced x (by simp)) hw (by omega)
      have hag2 : Agrees σ (cur.set (x.natAbs - 1) (if 0 < x then 1 else -1)) :=
        agrees_set σ cur _ _ hag hxval
      by_cases h2 :
          checkConflict p (cur.set (x.natAbs - 1) (if 0 < x then 1 else -1)) = true
      · rw [if_pos h2]
        exact ⟨fun _ => conflict_not_sat p _ σ h2 hag2 hs,
          fun hc => absurd hc.symm Bool.false_ne_true⟩
      · rw [if_neg h2]
        exact ih _ _ (fun l hl => hforced l (by simp [hl]))
          (fun l hl => hrange l (by simp [hl])) hag2
    · rw [if_neg (by simpa using h1)]
      exact ih _ _ (fun l hl => hforced l (by simp [hl]))
        (fun l hl => hrange l (by simp [hl])) hag

/-! Pure-literal safety. -/

theorem litSatisfied_iff_value (b : List Int) (y : Int) :
    litSatisfied b y = true ↔
      (0 < y ∧ 0 < b.getD (y.natAbs - 1) 0) ∨ (y < 0 ∧ b.getD (y.natAbs - 1) 0 < 0) := by
  simp only [litSatisfied, litValue, Bool.or_eq_true, Bool.and_eq_true, decide_eq_true_eq]

theorem checkConflict_false_iff (p : SATproblem) (a : List Int) :
    checkConflict p a = false ↔ ∀ c ∈ p.clauses, clauseFalsified a c = false := by
  simp [checkConflict, List.any_eq_false]

theorem litValue_ne_zero_of_sat (b : List Int) (y : Int)
    (h : litSatisfied b y = true) : b.getD (y.natAbs - 1) 0 ≠ 0 := by
  rcases (litSatisfied_iff_value b y).mp h with ⟨_, hv⟩ | ⟨_, hv⟩ <;> omega

theorem natAbs_pos_of_sat (b : List Int) (y : Int)
    (h : litSatisfied b y = true) : 1 ≤ y.natAbs := by
  rcases (litSatisfied_iff_value b y).mp h with ⟨hy, _⟩ | ⟨hy, _⟩ <;> omega

theorem pure_override_noConflict (p : SATproblem) (a1 : List Int) (L : List Int)
    (hL : ∀ l ∈ L, PureCondP p a1 l)
    (hpw : List.Pairwise (fun x y : Int => x.natAbs < y.natAbs) L)
    (h0 : ∀ c ∈ p.clauses, ∀ x ∈ c, 1 ≤ x.natAbs)
    (hcc : checkConflict p a1 = false) :
    checkConflict p (overrideL L a1) = false := by
  have hone : ∀ x ∈ L, 1 ≤ x.natAbs := fun x hx => (hL x hx).1
  by_contra hc
  rw [Bool.not_eq_false] at hc
  obtain ⟨c, hcm, hcf⟩ := (checkConflict_iff p _).mp hc
  have hchar := (clauseFalsified_iff _ c).mp hcf
  by_cases hcs : clauseSatisfied a1 c = true
  · obtain ⟨y, hy, hsy⟩ := List.any_eq_true.mp hcs
    have hyval : a1.getD (y.natAbs - 1) 0 ≠ 0 := litValue_ne_zero_of_sat a1 y hsy
    have hnp : ∀ l ∈ L, y.natAbs - 1 ≠ l.natAbs - 1 := by
      intro l hl hcpos
      have hl0 : a1.getD (l.natAbs - 1) 0 = 0 := (hL l hl).2.2.1
      rw [← hcpos] at hl0
      exact hyval hl0
    have hkeep : (overrideL L a1).getD (y.natAbs - 1) 0 = a1.getD (y.natAbs - 1) 0 :=
      overrideL_getD_not_mem L a1 _ hnp
    have hsy2 : litSatisfied (overrideL L a1) y = true := by
      rw [litSatisfied_eq_of_getD_eq _ a1 y hkeep]
      exact hsy
    have hbad := (hchar y hy).2.2
    rw [hsy2] at hbad
    exact absurd hbad.symm Bool.false_ne_true
  · have hns : ∀ x ∈ c, litSatisfied a1 x = false :=
      (clauseSatisfied_false_iff a1 c).mp (Bool.eq_false_iff.mpr hcs)
    have hfa1 : clauseFalsified a1 c = true := by
      rw [clauseFalsified_iff]
      intro x hx
      have hxc := hchar x hx
      have hlen : x.natAbs ≤ a1.length := by
        have := hxc.1
        rwa [length_overrideL] at this
      refine ⟨hlen, ?_, hns x hx⟩
      intro hval0
      rw [litValue] at hval0
      have hx1 : 1 ≤ x.natAbs := h0 c hcm x hx
      have hvOL : (overrideL L a1).getD (x.natAbs - 1) 0 ≠ 0 := by
        have := hxc.2.1
        rwa [litValue] at this
      have hexl : ∃ l ∈ L, x.natAbs - 1 = l.natAbs - 1 := by
        by_contra hne
        push_neg at hne
        rw [overrideL_getD_not_mem L a1 _ hne] at hvOL
        exact hvOL hval0
      obtain ⟨l, hlm, hposeq⟩ := hexl
      have hlc := hL l hlm
      have hnateq : x.natAbs = l.natAbs := by
        have := hlc.1
        omega
      have hltlen : l.natAbs - 1 < a1.length := by omega
      have hv := overrideL_getD_mem L a1 l hlm hone hpw hltlen
      rcases lt_trichotomy x 0 with hxneg | hxzero | hxpos
      · have hN : NegOcc p a1 l.natAbs :=
          ⟨c, hcm, hns, x, hx, hxneg, hnateq, by rw [litValue]; exact hval0⟩
        rcases hlc.2.2.2 with ⟨_, _, hnoneg⟩ | ⟨hlneg, _, _⟩
        · exact hnoneg hN
        · rw [if_neg (by omega)] at hv
          have hsat : litSatisfied (overrideL L a1) x = true := by
            rw [litSatisfied_iff_value]
            refine Or.inr ⟨hxneg, ?_⟩
            rw [hposeq, hv]
            omega
          have := hxc.2.2
          rw [hsat] at this
          exact absurd this.symm Bool.false_ne_true
      · rw [hxzero] at hx1
        simp at hx1
      · have hP : PosOcc p a1 l.natAbs :=
          ⟨c, hcm, hns, x, hx, hxpos, hnateq, by rw [litValue]; exact hval0⟩
        rcases hlc.2.2.2 with ⟨hlpos, _, _⟩ | ⟨_, _, hnopos⟩
        · rw [if_pos hlpos] at hv
          have hsat : litSatisfied (overrideL L a1) x = true := by
            rw [litSatisfied_iff_value]
            refine Or.inl ⟨hxpos, ?_⟩
            rw [hposeq, hv]
            omega
          have := hxc.2.2
          rw [hsat] at this
          exact absurd this.symm Bool.false_ne_true
        · exact hnopos hP
    have := (checkConflict_false_iff p a1).mp hcc c hcm
    rw [hfa1] at this
    exact absurd this.symm Bool.false_ne_true

theorem pureExt (p : SATproblem) (a1 σ : List Int) (L : List Int)
    (hL : ∀ l ∈ L, PureCondP p a1 l)
    (hpw : List.Pairwise (fun x y : Int => x.natAbs < y.natAbs) L)
    (htot : TotalOn σ p.numVars) (hag : Agrees σ a1) (hs : Satisfies σ p) :
    TotalOn (overrideL L σ) p.numVars ∧ Agrees (overrideL L σ) (overrideL L a1) ∧
      Satisfies (overrideL L σ) p := by
  have hone : ∀ x ∈ L, 1 ≤ x.natAbs := fun x hx => (hL x hx).1
  have hlenσ : σ.length = p.numVars := htot.1
  have hltσ : ∀ l ∈ L, l.natAbs - 1 < σ.length := by
    intro l hl
    have h1 := (hL l hl).1
    have h2 := (hL l hl).2.1
    omega
  refine ⟨⟨by rw [length_overrideL]; exact hlenσ, ?_⟩, ?_, ?_⟩
  · intro j hj
    by_cases hjp : ∃ l ∈ L, j = l.natAbs - 1
    · obtain ⟨l, hlm, hjl⟩ := hjp
      rw [hjl, overrideL_getD_mem L σ l hlm hone hpw (hltσ l hlm)]
      by_cases hx : 0 < l
      · rw [if_pos hx]; exact Or.inl rfl
      · rw [if_neg hx]; exact Or.inr rfl
    · push_neg at hjp
      rw [overrideL_getD_not_mem L σ j hjp]
      exact htot.2 j hj
  · intro j hj
    by_cases hjp : ∃ l ∈ L, j = l.natAbs - 1
    · obtain ⟨l, hlm, hjl⟩ := hjp
      subst hjl
      by_cases hlt : l.natAbs - 1 < a1.length
      · rw [overrideL_getD_mem L a1 l hlm hone hpw hlt] at hj ⊢
        rw [overrideL_getD_mem L σ l hlm hone hpw (hltσ l hlm)]
      · have : (overrideL L a1).getD (l.natAbs - 1) 0 = 0 := by
          refine getD_of_length_le _ _ ?_
          rw [length_overrideL]
          omega
        exact absurd this hj
    · push_neg at hjp
      rw [overrideL_getD_not_mem L a1 j hjp] at hj ⊢
      rw [overrideL_getD_not_mem L σ j hjp]
      exact hag j hj
  · intro c hc
    by_cases hcs : clauseSatisfied a1 c = true
    · obtain ⟨y, hy, hsy⟩ := List.any_eq_true.mp hcs
      have hyval : a1.getD (y.natAbs - 1) 0 ≠ 0 := litValue_ne_zero_of_sat a1 y hsy
      have hnp : ∀ l ∈ L, y.natAbs - 1 ≠ l.natAbs - 1 := by
        intro l hl hcpos
        have hl0 : a1.getD (l.natAbs - 1) 0 = 0 := (hL l hl).2.2.1
        rw [← hcpos] at hl0
        exact hyval hl0
      refine ⟨y, hy, ?_⟩
      have hkeep : (overrideL L σ).getD (y.natAbs - 1) 0 = a1.getD (y.natAbs - 1) 0 := by
        rw [overrideL_getD_not_mem L σ _ hnp]
        exact hag _ hyval
      rw [litSatisfied_eq_of_getD_eq _ a1 y hkeep]
      exact hsy
    · have hns : ∀ x ∈ c, litSatisfied a1 x = false :=
        (clauseSatisfied_false_iff a1 c).mp (Bool.eq_false_iff.mpr hcs)
      obtain ⟨y, hy, hsy⟩ := hs c hc
      have hy1 : 1 ≤ y.natAbs := natAbs_pos_of_sat σ y hsy
      by_cases hvp : ∃ l ∈ L, y.natAbs = l.natAbs
      · obtain ⟨l, hlm, hnateq⟩ := hvp
        have hlc := hL l hlm
        have hyval0 : a1.getD (y.natAbs - 1) 0 = 0 := by
          rw [hnateq]
          exact hlc.2.2.1
        have hv := overrideL_getD_mem L σ l hlm hone hpw (hltσ l hlm)
        refine ⟨y, hy, ?_⟩
        rw [litSatisfied_iff_value]
        rcases lt_trichotomy y 0 with hyneg | hyzero | hypos
        · have hN : NegOcc p a1 l.natAbs :=
            ⟨c, hc, hns, y, hy, hyneg, hnateq, by rw [litValue]; exact hyval0⟩
          rcases hlc.2.2.2 with ⟨_, _, hnoneg⟩ | ⟨hlneg, _, _⟩
          · exact absurd hN hnoneg
          · rw [if_neg (by omega)] at hv
            refine Or.inr ⟨hyneg, ?_⟩
            rw [show y.natAbs - 1 = l.natAbs - 1 by omega, hv]
            omega
        · omega
        · have hP : PosOcc p a1 l.natAbs :=
            ⟨c, hc, hns, y, hy, hypos, hnateq, by rw [litValue]; exact hyval0⟩
          rcases hlc.2.2.2 with ⟨hlpos, _, _⟩ | ⟨_, _, hnopos⟩
          · rw [if_pos hlpos] at hv
            refine Or.inl ⟨hypos, ?_⟩
            rw [show y.natAbs - 1 = l.natAbs - 1 by omega, hv]
            omega
          · exact absurd hP hnopos
      · push_neg at hvp
        have hnp : ∀ l ∈ L, y.natAbs - 1 ≠ l.natAbs - 1 := by
          intro l hl hcpos
          have := hone l hl
          have := hvp l hl
          omega
        refine ⟨y, hy, ?_⟩
        have hkeep : (overrideL L σ).getD (y.natAbs - 1) 0 = σ.getD (y.natAbs - 1) 0 :=
          overrideL_getD_not_mem L σ _ hnp
        rw [litSatisfied_eq_of_getD_eq _ σ y hkeep]
        exact hsy

/-! Unfolding equations for `solveFuel`, scan lemmas for `findNext`, and the
forced-literal property of `findUnitClauses`. -/

theorem solveFuel_conflict (f : Nat) (p : SATproblem) (a : List Int) (i : Nat)
    (hc : checkConflict p a = true) : solveFuel (f + 1) p a i = some (false, a) := by
  simp only [solveFuel, hc, if_true]

theorem solveFuel_unitConflict (f : Nat) (p : SATproblem) (a : List Int) (i : Nat)
    (a1 : List Int) (s1 : List (Nat × Int)) (hc : checkConflict p a = false)
    (hul : unitLoop p (findUnitClauses p a) [] a = (true, a1, s1)) :
    solveFuel (f + 1) p a i = some (false, a1) := by
  simp only [solveFuel, hc, Bool.false_eq_true, if_false, hul]

theorem solveFuel_terminal1 (f : Nat) (p : SATproblem) (a : List Int) (i : Nat)
    (a1 : List Int) (s1 : List (Nat × Int)) (a2 : List Int) (s2 : List (Nat × Int))
    (hc : checkConflict p a = false)
    (hul : unitLoop p (findUnitClauses p a) [] a = (false, a1, s1))
    (hpl : pureLoop (findPureLiterals p a1) s1 a1 = (a2, s2))
    (hi : p.numVars < i) :
    solveFuel (f + 1) p a i = some (!checkConflict p a2, a2) := by
  simp only [solveFuel, hc, Bool.false_eq_true, if_false, hul, hpl, if_pos hi]

theorem solveFuel_terminal2 (f : Nat) (p : SATproblem) (a : List Int) (i : Nat)
    (a1 : List Int) (s1 : List (Nat × Int)) (a2 : List Int) (s2 : List (Nat × Int))
    (hc : checkConflict p a = false)
    (hul : unitLoop p (findUnitClauses p a) [] a = (false, a1, s1))
    (hpl : pureLoop (findPureLiterals p a1) s1 a1 = (a2, s2))
    (hi : ¬p.numVars < i) (hnv : p.numVars < findNext a2 p.numVars i) :
    solveFuel (f + 1) p a i = some (!checkConflict p a2, a2) := by
  simp only [solveFuel, hc, Bool.false_eq_true, if_false, hul, hpl, if_neg hi, if_pos hnv]

theorem solveFuel_branch_n1 (f : Nat) (p : SATproblem) (a : List Int) (i : Nat)
    (a1 : List Int) (s1 : List (Nat × Int)) (a2 : List Int) (s2 : List (Nat × Int))
    (hc : checkConflict p a = false)
    (hul : unitLoop p (findUnitClauses p a) [] a = (false, a1, s1))
    (hpl : pureLoop (findPureLiterals p a1) s1 a1 = (a2, s2))
    (hi : ¬p.numVars < i) (hnv : ¬p.numVars < findNext a2 p.numVars i)
    (hr1 : solveFuel f p (a2.set (findNext a2 p.numVars i - 1) 1)
      (findNext a2 p.numVars i + 1) = none) :
    solveFuel (f + 1) p a i = none := by
  simp only [solveFuel, hc, Bool.false_eq_true, if_false, hul, hpl, if_neg hi, if_neg hnv, hr1]

theorem solveFuel_branch_t1 (f : Nat) (p : SATproblem) (a : List Int) (i : Nat)
    (a1 : List Int) (s1 : List (Nat × Int)) (a2 : List Int) (s2 : List (Nat × Int))
    (a4 : List Int) (hc : checkConflict p a = false)
    (hul : unitLoop p (findUnitClauses p a) [] a = (false, a1, s1))
    (hpl : pureLoop (findPureLiterals p a1) s1 a1 = (a2, s2))
    (hi : ¬p.numVars < i) (hnv : ¬p.numVars < findNext a2 p.numVars i)
    (hr1 : solveFuel f p (a2.set (findNext a2 p.numVars i - 1) 1)
      (findNext a2 p.numVars i + 1) = some (true, a4)) :
    solveFuel (f + 1) p a i = some (true, a4) := by
  simp only [solveFuel, hc, Bool.false_eq_true, if_false, hul, hpl, if_neg hi, if_neg hnv, hr1]

theorem solveFuel_branch_n2 (f : Nat) (p : SATproblem) (a : List Int) (i : Nat)
    (a1 : List Int) (s1 : List (Nat × Int)) (a2 : List Int) (s2 : List (Nat × Int))
    (a4 : List Int) (hc : checkConflict p a = false)
    (hul : unitLoop p (findUnitClauses p a) [] a = (false, a1, s1))
    (hpl : pureLoop (findPureLiterals p a1) s1 a1 = (a2, s2))
    (hi : ¬p.numVars < i) (hnv : ¬p.numVars < findNext a2 p.numVars i)
    (hr1 : solveFuel f p (a2.set (findNext a2 p.numVars i - 1) 1)
      (findNext a2 p.numVars i + 1) = some (false, a4))
    (hr2 : solveFuel f p (a4.set (findNext a2 p.numVars i - 1) (-1))
      (findNext a2 p.numVars i + 1) = none) :
    solveFuel (f + 1) p a i = none := by
  simp only [solveFuel, hc, Bool.false_eq_true, if_false, hul, hpl, if_neg hi, if_neg hnv,
    hr1, hr2]

theorem solveFuel_branch_t2 (f : Nat) (p : SATproblem) (a : List Int) (i : Nat)
    (a1 : List Int) (s1 : List (Nat × Int)) (a2 : List Int) (s2 : List (Nat × Int))
    (a4 a6 : List Int) (hc : checkConflict p a = false)
    (hul : unitLoop p (findUnitClauses p a) [] a = (false, a1, s1))
    (hpl : pureLoop (findPureLiterals p a1) s1 a1 = (a2, s2))
    (hi : ¬p.numVars < i) (hnv : ¬p.numVars < findNext a2 p.numVars i)
    (hr1 : solveFuel f p (a2.set (findNext a2 p.numVars i - 1) 1)
      (findNext a2 p.numVars i + 1) = some (false, a4))
    (hr2 : solveFuel f p (a4.set (findNext a2 p.numVars i - 1) (-1))
      (findNext a2 p.numVars i + 1) = some (true, a6)) :
    solveFuel (f + 1) p a i = some (true, a6) := by
  simp only [solveFuel, hc, Bool.false_eq_true, if_false, hul, hpl, if_neg hi, if_neg hnv,
    hr1, hr2]

theorem solveFuel_branch_ff (f : Nat) (p : SATproblem) (a : List Int) (i : Nat)
    (a1 : List Int) (s1 : List (Nat × Int)) (a2 : List Int) (s2 : List (Nat × Int))
    (a4 a6 : List Int) (hc : checkConflict p a = false)
    (hul : unitLoop p (findUnitClauses p a) [] a = (false, a1, s1))
    (hpl : pureLoop (findPureLiterals p a1) s1 a1 = (a2, s2))
    (hi : ¬p.numVars < i) (hnv : ¬p.numVars < findNext a2 p.numVars i)
    (hr1 : solveFuel f p (a2.set (findNext a2 p.numVars i - 1) 1)
      (findNext a2 p.numVars i + 1) = some (false, a4))
    (hr2 : solveFuel f p (a4.set (findNext a2 p.numVars i - 1) (-1))
      (findNext a2 p.numVars i + 1) = some (false, a6)) :
    solveFuel (f + 1) p a i =
      some (false, undoAll s2 (a6.set (findNext a2 p.numVars i - 1) 0)) := by
  simp only [solveFuel, hc, Bool.false_eq_true, if_false, hul, hpl, if_neg hi, if_neg hnv,
    hr1, hr2]

theorem findNext_ge (a : List Int) (n i : Nat) : i ≤ findNext a n i :=
  Nat.le_add_right i _

theorem skipCount_stop (a : List Int) :
    ∀ f i, skipCount a f i < f → a.getD (i + skipCount a f i - 1) 0 = 0 := by
  intro f
  induction f with
  | zero => intro i h; omega
  | succ f ih =>
    intro i h
    by_cases h1 : a.getD (i - 1) 0 = 0
    · rw [skipCount, if_pos (by simpa using h1)]
      simpa using h1
    · rw [skipCount, if_neg (by simpa using h1)] at h ⊢
      have := ih (i + 1) (by omega)
      have harr : i + (skipCount a f (i + 1) + 1) - 1 = i + 1 + skipCount a f (i + 1) - 1 := by
        omega
      rw [harr]
      exact this

theorem findNext_unassigned (a : List Int) (n i : Nat)
    (h : findNext a n i ≤ n) (hi : i ≤ n) :
    a.getD (findNext a n i - 1) 0 = 0 := by
  rw [findNext] at h ⊢
  exact skipCount_stop a (n + 1 - i) i (by omega)

theorem skipCount_scan (a : List Int) :
    ∀ f i k, i ≤ k → k < i + skipCount a f i → a.getD (k - 1) 0 ≠ 0 := by
  intro f
  induction f with
  | zero => intro i k h1 h2; rw [skipCount] at h2; omega
  | succ f ih =>
    intro i k h1 h2
    by_cases hg : a.getD (i - 1) 0 = 0
    · rw [skipCount, if_pos (by simpa using hg)] at h2
      omega
    · rw [skipCount, if_neg (by simpa using hg)] at h2
      by_cases hk : k = i
      · rw [hk]; exact hg
      · exact ih (i + 1) k (by omega) (by omega)

theorem findNext_scan (a : List Int) (n i k : Nat) (h1 : i ≤ k)
    (h2 : k < findNext a n i) : a.getD (k - 1) 0 ≠ 0 := by
  rw [findNext] at h2
  exact skipCount_scan a (n + 1 - i) i k h1 h2

theorem forced_lit_sat (p : SATproblem) (a σ : List Int) (l : Int)
    (h0 : ∀ c ∈ p.clauses, ∀ x ∈ c, x ≠ 0)
    (hmem : l ∈ findUnitClauses p a) (hag : Agrees σ a) (hs : Satisfies σ p) :
    litSatisfied σ l = true := by
  obtain ⟨c, hc, hns, hlm, hlv, hcnt⟩ := (mem_findUnitClauses p a l h0).mp hmem
  obtain ⟨y, hy, hsy⟩ := hs c hc
  have hyeq : y = l := by
    by_cases hyval : litValue a y = 0
    · exact countP_one_unique c _ hcnt y l hy (by simpa using hyval) hlm (by simpa using hlv)
    · exfalso
      have hkeep : σ.getD (y.natAbs - 1) 0 = a.getD (y.natAbs - 1) 0 :=
        hag _ (by rw [litValue] at hyval; exact hyval)
      rw [litSatisfied_eq_of_getD_eq σ a y hkeep, hns y hy] at hsy
      exact Bool.false_ne_true hsy
  rw [← hyeq]
  exact hsy

theorem findUnitClauses_range (p : SATproblem) (a : List Int) (l : Int)
    (hinv : ProblemInv p) (hmem : l ∈ findUnitClauses p a) :
    1 ≤ l.natAbs ∧ l.natAbs ≤ p.numVars := by
  have h0 : ∀ c ∈ p.clauses, ∀ x ∈ c, x ≠ 0 := by
    intro c hc x hx
    have := (hinv c hc x hx).1
    omega
  obtain ⟨c, hc, _, hlm, _, _⟩ := (mem_findUnitClauses p a l h0).mp hmem
  exact hinv c hc l hlm

/-! Main invariants of the search, by induction on the fuel. -/

theorem fuelFrame : ∀ (f : Nat) (p : SATproblem) (a : List Int) (i : Nat)
    (r : Bool × List Int), ProblemInv p → solveFuel f p a i = some r →
    r.1 = false → r.2 = a := by
  intro f
  induction f with
  | zero =>
    intro p a i r _ heq _
    rw [solveFuel] at heq
    exact absurd heq (by simp)
  | succ f ih =>
    intro p a i r hinv heq hfalse
    by_cases hcA : checkConflict p a = true
    · rw [solveFuel_conflict f p a i hcA] at heq
      rw [← Option.some.inj heq]
    · have hc : checkConflict p a = false := Bool.eq_false_iff.mpr hcA
      rcases hul : unitLoop p (findUnitClauses p a) [] a with ⟨b, a1, s1⟩
      cases b with
      | true =>
        rw [solveFuel_unitConflict f p a i a1 s1 hc hul] at heq
        have ha1 : a1 = a := by
          have h3 := (unitLoop_savedInv p a (findUnitClauses p a) [] a (savedInv_nil a)).1
          rw [hul] at h3
          exact h3 rfl
        rw [← Option.some.inj heq, ha1]
      | false =>
        rcases hpl : pureLoop (findPureLiterals p a1) s1 a1 with ⟨a2, s2⟩
        have hsi1 : SavedInv a s1 a1 := by
          have h3 := (unitLoop_savedInv p a (findUnitClauses p a) [] a (savedInv_nil a)).2
          rw [hul] at h3
          exact h3 rfl
        have hsi2 : SavedInv a s2 a2 := by
          have h3 := pureLoop_savedInv a (findPureLiterals p a1) s1 a1 hsi1
          rw [hpl] at h3
          exact h3
        have hcc1 : checkConflict p a1 = false := by
          have h3 := unitLoop_noConflict p (findUnitClauses p a) [] a hc
          rw [hul] at h3
          exact h3 rfl
        have hLcond : ∀ l ∈ findPureLiterals p a1, PureCondP p a1 l :=
          fun l hl => (mem_findPureLiterals p a1 l).mp hl
        have h0 : ∀ c ∈ p.clauses, ∀ x ∈ c, 1 ≤ x.natAbs :=
          fun c hcm x hx => (hinv c hcm x hx).1
        have ha2 : a2 = overrideL (findPureLiterals p a1) a1 := by
          have h3 := pureLoop_eq_overrideL (findPureLiterals p a1) s1 a1
            (fun l hl => (hLcond l hl).2.2.1) (fun l hl => (hLcond l hl).1)
            (findPureLiterals_pairwise p a1)
          rw [hpl] at h3
          exact congrArg Prod.fst h3
        have hcc2 : checkConflict p a2 = false := by
          rw [ha2]
          exact pure_override_noConflict p a1 _ hLcond (findPureLiterals_pairwise p a1)
            h0 hcc1
        by_cases hi : p.numVars < i
        · rw [solveFuel_terminal1 f p a i a1 s1 a2 s2 hc hul hpl hi] at heq
          rw [← Option.some.inj heq] at hfalse
          rw [hcc2] at hfalse
          exact absurd hfalse (by simp)
        · by_cases hnv : p.numVars < findNext a2 p.numVars i
          · rw [solveFuel_terminal2 f p a i a1 s1 a2 s2 hc hul hpl hi hnv] at heq
            rw [← Option.some.inj heq] at hfalse
            rw [hcc2] at hfalse
            exact absurd hfalse (by simp)
          · rcases hr1 : solveFuel f p (a2.set (findNext a2 p.numVars i - 1) 1)
                (findNext a2 p.numVars i + 1) with _ | ⟨b1, a4⟩
            · rw [solveFuel_branch_n1 f p a i a1 s1 a2 s2 hc hul hpl hi hnv hr1] at heq
              exact absurd heq (by simp)
            · cases b1 with
              | true =>
                rw [solveFuel_branch_t1 f p a i a1 s1 a2 s2 a4 hc hul hpl hi hnv hr1] at heq
                rw [← Option.some.inj heq] at hfalse
                exact absurd hfalse (by simp)
              | false =>
                have ha4 : a4 = a2.set (findNext a2 p.numVars i - 1) 1 :=
                  ih p _ _ (false, a4) hinv hr1 rfl
                rcases hr2 : solveFuel f p (a4.set (findNext a2 p.numVars i - 1) (-1))
                    (findNext a2 p.numVars i + 1) with _ | ⟨b2, a6⟩
                · rw [solveFuel_branch_n2 f p a i a1 s1 a2 s2 a4 hc hul hpl hi hnv
                    hr1 hr2] at heq
                  exact absurd heq (by simp)
                · cases b2 with
                  | true =>
                    rw [solveFuel_branch_t2 f p a i a1 s1 a2 s2 a4 a6 hc hul hpl hi hnv
                      hr1 hr2] at heq
                    rw [← Option.some.inj heq] at hfalse
                    exact absurd hfalse (by simp)
                  | false =>
                    have ha6 : a6 = a4.set (findNext a2 p.numVars i - 1) (-1) :=
                      ih p _ _ (false, a6) hinv hr2 rfl
                    rw [solveFuel_branch_ff f p a i a1 s1 a2 s2 a4 a6 hc hul hpl hi hnv
                      hr1 hr2] at heq
                    rw [← Option.some.inj heq]
                    show undoAll s2 (a6.set (findNext a2 p.numVars i - 1) 0) = a
                    rw [ha6, ha4, List.set_set, List.set_set]
                    have hgd : a2.getD (findNext a2 p.numVars i - 1) 0 = 0 :=
                      findNext_unassigned a2 p.numVars i (by omega) (by omega)
                    rw [set_of_getD_eq a2 _ 0 hgd]
                    exact savedInv_undo a s2 a2 hsi2

theorem fuelComplete : ∀ (f : Nat) (p : SATproblem) (a : List Int) (i : Nat)
    (r : Bool × List Int) (σ : List Int), ProblemInv p → a.length = p.numVars →
    solveFuel f p a i = some r → r.1 = false →
    TotalOn σ p.numVars → Agrees σ a → Satisfies σ p → False := by
  intro f
  induction f with
  | zero =>
    intro p a i r σ _ _ heq _ _ _ _
    rw [solveFuel] at heq
    exact absurd heq (by simp)
  | succ f ih =>
    intro p a i r σ hinv hlen heq hfalse htot hag hs
    have hw : ∀ j, j < σ.length → (σ.getD j 0 = 1 ∨ σ.getD j 0 = -1) := by
      intro j hj
      exact htot.2 j (by rw [← htot.1]; exact hj)
    have h00 : ∀ c ∈ p.clauses, ∀ x ∈ c, x ≠ 0 := by
      intro c hcm x hx
      have := (hinv c hcm x hx).1
      omega
    by_cases hcA : checkConflict p a = true
    · exact conflict_not_sat p a σ hcA hag hs
    · have hc : checkConflict p a = false := Bool.eq_false_iff.mpr hcA
      have hforced : ∀ l ∈ findUnitClauses p a, litSatisfied σ l = true :=
        fun l hl => forced_lit_sat p a σ l h00 hl hag hs
      have hrange : ∀ l ∈ findUnitClauses p a, 1 ≤ l.natAbs ∧ l.natAbs ≤ σ.length := by
        intro l hl
        have h4 := findUnitClauses_range p a l hinv hl
        rw [htot.1]
        exact h4
      have hUL := unitLoop_agrees p σ hs hw (findUnitClauses p a) [] a hforced hrange hag
      rcases hul : unitLoop p (findUnitClauses p a) [] a with ⟨b, a1, s1⟩
      rw [hul] at hUL
      cases b with
      | true => exact hUL.1 rfl
      | false =>
        have hag1 : Agrees σ a1 := hUL.2 rfl
        rcases hpl : pureLoop (findPureLiterals p a1) s1 a1 with ⟨a2, s2⟩
        have hcc1 : checkConflict p a1 = false := by
          have h3 := unitLoop_noConflict p (findUnitClauses p a) [] a hc
          rw [hul] at h3
          exact h3 rfl
        have hLcond : ∀ l ∈ findPureLiterals p a1, PureCondP p a1 l :=
          fun l hl => (mem_findPureLiterals p a1 l).mp hl
        have h0 : ∀ c ∈ p.clauses, ∀ x ∈ c, 1 ≤ x.natAbs :=
          fun c hcm x hx => (hinv c hcm x hx).1
        have ha2 : a2 = overrideL (findPureLiterals p a1) a1 := by
          have h3 := pureLoop_eq_overrideL (findPureLiterals p a1) s1 a1
            (fun l hl => (hLcond l hl).2.2.1) (fun l hl => (hLcond l hl).1)
            (findPureLiterals_pairwise p a1)
          rw [hpl] at h3
          exact congrArg Prod.fst h3
        have hcc2 : checkConflict p a2 = false := by
          rw [ha2]
          exact pure_override_noConflict p a1 _ hLcond (findPureLiterals_pairwise p a1)
            h0 hcc1
        have ha1len : a1.length = p.numVars := by
          have h3 := unitLoop_length p (findUnitClauses p a) [] a
          rw [hul] at h3
          have h4 := h3 rfl
          rw [hlen] at h4
          exact h4
        have ha2len : a2.length = p.numVars := by
          have h3 := pureLoop_length (findPureLiterals p a1) s1 a1
          rw [hpl] at h3
          rw [ha1len] at h3
          exact h3
        have hPE := pureExt p a1 σ (findPureLiterals p a1) hLcond
          (findPureLiterals_pairwise p a1) htot hag1 hs
        obtain ⟨htot2, hag2a, hs2⟩ := hPE
        have hag2 : Agrees (overrideL (findPureLiterals p a1) σ) a2 := by
          rw [ha2]
          exact hag2a
        by_cases hi : p.numVars < i
        · rw [solveFuel_terminal1 f p a i a1 s1 a2 s2 hc hul hpl hi] at heq
          rw [← Option.some.inj heq] at hfalse
          rw [hcc2] at hfalse
          exact absurd hfalse (by simp)
        · by_cases hnv : p.numVars < findNext a2 p.numVars i
          · rw [solveFuel_terminal2 f p a i a1 s1 a2 s2 hc hul hpl hi hnv] at heq
            rw [← Option.some.inj heq] at hfalse
            rw [hcc2] at hfalse
            exact absurd hfalse (by simp)
          · rcases hr1 : solveFuel f p (a2.set (findNext a2 p.numVars i - 1) 1)
                (findNext a2 p.numVars i + 1) with _ | ⟨b1, a4⟩
            · rw [solveFuel_branch_n1 f p a i a1 s1 a2 s2 hc hul hpl hi hnv hr1] at heq
              exact absurd heq (by simp)
            · cases b1 with
              | true =>
                rw [solveFuel_branch_t1 f p a i a1 s1 a2 s2 a4 hc hul hpl hi hnv hr1] at heq
                rw [← Option.some.inj heq] at hfalse
                exact absurd hfalse (by simp)
              | false =>
                by_cases hlt : findNext a2 p.numVars i - 1 < a2.length
                · rcases htot2.2 (findNext a2 p.numVars i - 1) (by omega) with hv1 | hv1
                  · exact ih p _ _ (false, a4) (overrideL (findPureLiterals p a1) σ)
                      hinv (by rw [List.length_set]; exact ha2len) hr1 rfl htot2
                      (agrees_set _ a2 _ 1 hag2 hv1) hs2
                  · have ha4 : a4 = a2.set (findNext a2 p.numVars i - 1) 1 :=
                      fuelFrame f p _ _ (false, a4) hinv hr1 rfl
                    rcases hr2 : solveFuel f p
                        (a4.set (findNext a2 p.numVars i - 1) (-1))
                        (findNext a2 p.numVars i + 1) with _ | ⟨b2, a6⟩
                    · rw [solveFuel_branch_n2 f p a i a1 s1 a2 s2 a4 hc hul hpl hi hnv
                        hr1 hr2] at heq
                      exact absurd heq (by simp)
                    · cases b2 with
                      | true =>
                        rw [solveFuel_branch_t2 f p a i a1 s1 a2 s2 a4 a6 hc hul hpl hi
                          hnv hr1 hr2] at heq
                        rw [← Option.some.inj heq] at hfalse
                        exact absurd hfalse (by simp)
                      | false =>
                        have ha5 : a4.set (findNext a2 p.numVars i - 1) (-1) =
                            a2.set (findNext a2 p.numVars i - 1) (-1) := by
                          rw [ha4, List.set_set]
                        refine ih p _ _ (false, a6) (overrideL (findPureLiterals p a1) σ)
                          hinv ?_ hr2 rfl htot2 ?_ hs2
                        · rw [ha5, List.length_set]
                          exact ha2len
                        · rw [ha5]
                          exact agrees_set _ a2 _ (-1) hag2 hv1
                · have hnoop : a2.set (findNext a2 p.numVars i - 1) 1 = a2 :=
                    List.set_eq_of_length_le (Nat.le_of_not_lt hlt)
                  refine ih p _ _ (false, a4) (overrideL (findPureLiterals p a1) σ)
                    hinv ?_ hr1 rfl htot2 ?_ hs2
                  · rw [hnoop]
                    exact ha2len
                  · rw [hnoop]
                    exact hag2

theorem fuelSound : ∀ (f : Nat) (p : SATproblem) (a : List Int) (i : Nat)
    (r : Bool × List Int), ProblemInv p → a.length = p.numVars → WfVals a →
    (∀ j, j + 1 < i → a.getD j 0 ≠ 0) →
    solveFuel f p a i = some r → r.1 = true →
    TotalOn r.2 p.numVars ∧ Satisfies r.2 p := by
  intro f
  induction f with
  | zero =>
    intro p a i r _ _ _ _ heq _
    rw [solveFuel] at heq
    exact absurd heq (by simp)
  | succ f ih =>
    intro p a i r hinv hlen hwf hpre heq htrue
    by_cases hcA : checkConflict p a = true
    · rw [solveFuel_conflict f p a i hcA] at heq
      rw [← Option.some.inj heq] at htrue
      exact absurd htrue (by simp)
    · have hc : checkConflict p a = false := Bool.eq_false_iff.mpr hcA
      rcases hul : unitLoop p (findUnitClauses p a) [] a with ⟨b, a1, s1⟩
      cases b with
      | true =>
        rw [solveFuel_unitConflict f p a i a1 s1 hc hul] at heq
        rw [← Option.some.inj heq] at htrue
        exact absurd htrue (by simp)
      | false =>
        rcases hpl : pureLoop (findPureLiterals p a1) s1 a1 with ⟨a2, s2⟩
        have ha1len : a1.length = p.numVars := by
          have h3 := unitLoop_length p (findUnitClauses p a) [] a
          rw [hul] at h3
          have h4 := h3 rfl
          rw [hlen] at h4
          exact h4
        have ha2len : a2.length = p.numVars := by
          have h3 := pureLoop_length (findPureLiterals p a1) s1 a1
          rw [hpl] at h3
          rw [ha1len] at h3
          exact h3
        have hwf2 : WfVals a2 := by
          have h3 := unitLoop_wf p (findUnitClauses p a) [] a hwf
          rw [hul] at h3
          have h4 := pureLoop_wf (findPureLiterals p a1) s1 a1 (h3 rfl)
          rw [hpl] at h4
          exact h4
        have hpres : ∀ j, a.getD j 0 ≠ 0 → a2.getD j 0 = a.getD j 0 := by
          intro j hj
          have h3 := unitLoop_getD_preserved p (findUnitClauses p a) [] a j hj
          rw [hul] at h3
          have h4 := h3 rfl
          have h5 := pureLoop_getD_preserved (findPureLiterals p a1) s1 a1 j
            (by rw [h4]; exact hj)
          rw [hpl] at h5
          rw [← h4]
          exact h5
        by_cases hi : p.numVars < i
        · rw [solveFuel_terminal1 f p a i a1 s1 a2 s2 hc hul hpl hi] at heq
          have hr : r = (!checkConflict p a2, a2) := (Option.some.inj heq).symm
          rw [hr] at htrue ⊢
          have hcc2 : checkConflict p a2 = false := by
            revert htrue
            cases checkConflict p a2 <;> simp
          have htota2 : ∀ j, j < p.numVars → a2.getD j 0 ≠ 0 := by
            intro j hj
            have h3 := hpre j (by omega)
            rw [hpres j h3]
            exact h3
          have htot2 : TotalOn a2 p.numVars := by
            refine ⟨ha2len, ?_⟩
            intro j hj
            rcases hwf2 j with h4 | h4 | h4
            · exact absurd h4 (htota2 j hj)
            · exact Or.inl h4
            · exact Or.inr h4
          refine ⟨htot2, ?_⟩
          intro c hcm
          refine not_falsified_total_sat a2 c
            ((checkConflict_false_iff p a2).mp hcc2 c hcm) ?_ ?_
          · intro l hl
            rw [ha2len]
            exact hinv c hcm l hl
          · intro j hj
            rw [ha2len] at hj
            exact htota2 j hj
        · by_cases hnv : p.numVars < findNext a2 p.numVars i
          · rw [solveFuel_terminal2 f p a i a1 s1 a2 s2 hc hul hpl hi hnv] at heq
            have hr : r = (!checkConflict p a2, a2) := (Option.some.inj heq).symm
            rw [hr] at htrue ⊢
            have hcc2 : checkConflict p a2 = false := by
              revert htrue
              cases checkConflict p a2 <;> simp
            have htota2 : ∀ j, j < p.numVars → a2.getD j 0 ≠ 0 := by
              intro j hj
              by_cases hji : j + 1 < i
              · have h3 := hpre j hji
                rw [hpres j h3]
                exact h3
              · have h3 := findNext_scan a2 p.numVars i (j + 1) (by omega) (by omega)
                simpa using h3
            have htot2 : TotalOn a2 p.numVars := by
              refine ⟨ha2len, ?_⟩
              intro j hj
              rcases hwf2 j with h4 | h4 | h4
              · exact absurd h4 (htota2 j hj)
              · exact Or.inl h4
              · exact Or.inr h4
            refine ⟨htot2, ?_⟩
            intro c hcm
            refine not_falsified_total_sat a2 c
              ((checkConflict_false_iff p a2).mp hcc2 c hcm) ?_ ?_
            · intro l hl
              rw [ha2len]
              exact hinv c hcm l hl
            · intro j hj
              rw [ha2len] at hj
              exact htota2 j hj
          · have hpre3 : ∀ v : Int, v ≠ 0 → ∀ j, j + 1 < findNext a2 p.numVars i + 1 →
                (a2.set (findNext a2 p.numVars i - 1) v).getD j 0 ≠ 0 := by
              intro v hv j hj
              by_cases hjv : j = findNext a2 p.numVars i - 1
              · rw [hjv, getD_set_self a2 _ v (by omega)]
                exact hv
              · rw [getD_set_ne a2 _ j v (fun hc => hjv hc.symm)]
                by_cases hji : j + 1 < i
                · have h3 := hpre j hji
                  rw [hpres j h3]
                  exact h3
                · have h3 := findNext_scan a2 p.numVars i (j + 1) (by omega) (by omega)
                  simpa using h3
            rcases hr1 : solveFuel f p (a2.set (findNext a2 p.numVars i - 1) 1)
                (findNext a2 p.numVars i + 1) with _ | ⟨b1, a4⟩
            · rw [solveFuel_branch_n1 f p a i a1 s1 a2 s2 hc hul hpl hi hnv hr1] at heq
              exact absurd heq (by simp)
            · cases b1 with
              | true =>
                rw [solveFuel_branch_t1 f p a i a1 s1 a2 s2 a4 hc hul hpl hi hnv hr1] at heq
                have hr : r = (true, a4) := (Option.some.inj heq).symm
                rw [hr]
                exact ih p _ _ (true, a4) hinv (by rw [List.length_set]; exact ha2len)
                  (wfVals_set a2 _ 1 (Or.inl rfl) hwf2) (hpre3 1 (by omega)) hr1 rfl
              | false =>
                have ha4 : a4 = a2.set (findNext a2 p.numVars i - 1) 1 :=
                  fuelFrame f p _ _ (false, a4) hinv hr1 rfl
                rcases hr2 : solveFuel f p (a4.set (findNext a2 p.numVars i - 1) (-1))
                    (findNext a2 p.numVars i + 1) with _ | ⟨b2, a6⟩
                · rw [solveFuel_branch_n2 f p a i a1 s1 a2 s2 a4 hc hul hpl hi hnv
                    hr1 hr2] at heq
                  exact absurd heq (by simp)
                · cases b2 with
                  | true =>
                    rw [solveFuel_branch_t2 f p a i a1 s1 a2 s2 a4 a6 hc hul hpl hi hnv
                      hr1 hr2] at heq
                    have hr : r = (true, a6) := (Option.some.inj heq).symm
                    rw [hr]
                    have ha5 : a4.set (findNext a2 p.numVars i - 1) (-1) =
                        a2.set (findNext a2 p.numVars i - 1) (-1) := by
                      rw [ha4, List.set_set]
                    rw [ha5] at hr2
                    exact ih p _ _ (true, a6) hinv (by rw [List.length_set]; exact ha2len)
                      (wfVals_set a2 _ (-1) (Or.inr rfl) hwf2) (hpre3 (-1) (by omega)) hr2 rfl
                  | false =>
                    rw [solveFuel_branch_ff f p a i a1 s1 a2 s2 a4 a6 hc hul hpl hi hnv
                      hr1 hr2] at heq
                    rw [← Option.some.inj heq] at htrue
                    exact absurd htrue (by simp)

/-! Unfolding equations for `solve` and equivalence with `solveFuel`. -/

theorem solve_conflict (p : SATproblem) (a : List Int) (i : Nat)
    (hc : checkConflict p a = true) : solve p a i = (false, a) := by
  rw [solve]
  simp only [hc, if_true]

theorem solve_unitConflict (p : SATproblem) (a : List Int) (i : Nat)
    (a1 : List Int) (s1 : List (Nat × Int)) (hc : checkConflict p a = false)
    (hul : unitLoop p (findUnitClauses p a) [] a = (true, a1, s1)) :
    solve p a i = (false, a1) := by
  rw [solve]
  simp only [hc, Bool.false_eq_true, if_false, hul]

theorem solve_terminal1 (p : SATproblem) (a : List Int) (i : Nat)
    (a1 : List Int) (s1 : List (Nat × Int)) (a2 : List Int) (s2 : List (Nat × Int))
    (hc : checkConflict p a = false)
    (hul : unitLoop p (findUnitClauses p a) [] a = (false, a1, s1))
    (hpl : pureLoop (findPureLiterals p a1) s1 a1 = (a2, s2))
    (hi : p.numVars < i) :
    solve p a i = (!checkConflict p a2, a2) := by
  rw [solve]
  simp only [hc, Bool.false_eq_true, if_false, hul, hpl, if_pos hi]

theorem solve_terminal2 (p : SATproblem) (a : List Int) (i : Nat)
    (a1 : List Int) (s1 : List (Nat × Int)) (a2 : List Int) (s2 : List (Nat × Int))
    (hc : checkConflict p a = false)
    (hul : unitLoop p (findUnitClauses p a) [] a = (false, a1, s1))
    (hpl : pureLoop (findPureLiterals p a1) s1 a1 = (a2, s2))
    (hi : ¬p.numVars < i) (hnv : p.numVars < findNext a2 p.numVars i) :
    solve p a i = (!checkConflict p a2, a2) := by
  rw [solve]
  simp only [hc, Bool.false_eq_true, if_false, hul, hpl, if_neg hi, dif_pos hnv]

theorem solve_branch_t1 (p : SATproblem) (a : List Int) (i : Nat)
    (a1 : List Int) (s1 : List (Nat × Int)) (a2 : List Int) (s2 : List (Nat × Int))
    (a4 : List Int) (hc : checkConflict p a = false)
    (hul : unitLoop p (findUnitClauses p a) [] a = (false, a1, s1))
    (hpl : pureLoop (findPureLiterals p a1) s1 a1 = (a2, s2))
    (hi : ¬p.numVars < i) (hnv : ¬p.numVars < findNext a2 p.numVars i)
    (hr1 : solve p (a2.set (findNext a2 p.numVars i - 1) 1)
      (findNext a2 p.numVars i + 1) = (true, a4)) :
    solve p a i = (true, a4) := by
  rw [solve]
  simp only [hc, Bool.false_eq_true, if_false, hul, hpl, if_neg hi, dif_neg hnv, hr1]

theorem solve_branch_t2 (p : SATproblem) (a : List Int) (i : Nat)
    (a1 : List Int) (s1 : List (Nat × Int)) (a2 : List Int) (s2 : List (Nat × Int))
    (a4 a6 : List Int) (hc : checkConflict p a = false)
    (hul : unitLoop p (findUnitClauses p a) [] a = (false, a1, s1))
    (hpl : pureLoop (findPureLiterals p a1) s1 a1 = (a2, s2))
    (hi : ¬p.numVars < i) (hnv : ¬p.numVars < findNext a2 p.numVars i)
    (hr1 : solve p (a2.set (findNext a2 p.numVars i - 1) 1)
      (findNext a2 p.numVars i + 1) = (false, a4))
    (hr2 : solve p (a4.set (findNext a2 p.numVars i - 1) (-1))
      (findNext a2 p.numVars i + 1) = (true, a6)) :
    solve p a i = (true, a6) := by
  rw [solve]
  simp only [hc, Bool.false_eq_true, if_false, hul, hpl, if_neg hi, dif_neg hnv, hr1, hr2]

theorem solve_branch_ff (p : SATproblem) (a : List Int) (i : Nat)
    (a1 : List Int) (s1 : List (Nat × Int)) (a2 : List Int) (s2 : List (Nat × Int))
    (a4 a6 : List Int) (hc : checkConflict p a = false)
    (hul : unitLoop p (findUnitClauses p a) [] a = (false, a1, s1))
    (hpl : pureLoop (findPureLiterals p a1) s1 a1 = (a2, s2))
    (hi : ¬p.numVars < i) (hnv : ¬p.numVars < findNext a2 p.numVars i)
    (hr1 : solve p (a2.set (findNext a2 p.numVars i - 1) 1)
      (findNext a2 p.numVars i + 1) = (false, a4))
    (hr2 : solve p (a4.set (findNext a2 p.numVars i - 1) (-1))
      (findNext a2 p.numVars i + 1) = (false, a6)) :
    solve p a i = (false, undoAll s2 (a6.set (findNext a2 p.numVars i - 1) 0)) := by
  rw [solve]
  simp only [hc, Bool.false_eq_true, if_false, hul, hpl, if_neg hi, dif_neg hnv, hr1, hr2]

theorem solveFuel_spec : ∀ (f : Nat) (p : SATproblem) (a : List Int) (i : Nat),
    p.numVars + 1 - i < f → solveFuel f p a i = some (solve p a i) := by
  intro f
  induction f with
  | zero =>
    intro p a i h
    omega
  | succ f ih =>
    intro p a i hf
    by_cases hcA : checkConflict p a = true
    · rw [solveFuel_conflict f p a i hcA, solve_conflict p a i hcA]
    · have hc : checkConflict p a = false := Bool.eq_false_iff.mpr hcA
      rcases hul : unitLoop p (findUnitClauses p a) [] a with ⟨b, a1, s1⟩
      cases b with
      | true =>
        rw [solveFuel_unitConflict f p a i a1 s1 hc hul, solve_unitConflict p a i a1 s1 hc hul]
      | false =>
        rcases hpl : pureLoop (findPureLiterals p a1) s1 a1 with ⟨a2, s2⟩
        by_cases hi : p.numVars < i
        · rw [solveFuel_terminal1 f p a i a1 s1 a2 s2 hc hul hpl hi,
            solve_terminal1 p a i a1 s1 a2 s2 hc hul hpl hi]
        · by_cases hnv : p.numVars < findNext a2 p.numVars i
          · rw [solveFuel_terminal2 f p a i a1 s1 a2 s2 hc hul hpl hi hnv,
              solve_terminal2 p a i a1 s1 a2 s2 hc hul hpl hi hnv]
          · have hge := findNext_ge a2 p.numVars i
            have hmeas : p.numVars + 1 - (findNext a2 p.numVars i + 1) < f := by omega
            rcases hs1 : solve p (a2.set (findNext a2 p.numVars i - 1) 1)
                (findNext a2 p.numVars i + 1) with ⟨b1, a4⟩
            have hr1 : solveFuel f p (a2.set (findNext a2 p.numVars i - 1) 1)
                (findNext a2 p.numVars i + 1) = some (b1, a4) := by
              rw [ih p _ _ hmeas, hs1]
            cases b1 with
            | true =>
              rw [solveFuel_branch_t1 f p a i a1 s1 a2 s2 a4 hc hul hpl hi hnv hr1,
                solve_branch_t1 p a i a1 s1 a2 s2 a4 hc hul hpl hi hnv hs1]
            | false =>
              rcases hs2 : solve p (a4.set (findNext a2 p.numVars i - 1) (-1))
                  (findNext a2 p.numVars i + 1) with ⟨b2, a6⟩
              have hr2 : solveFuel f p (a4.set (findNext a2 p.numVars i - 1) (-1))
                  (findNext a2 p.numVars i + 1) = some (b2, a6) := by
                rw [ih p _ _ hmeas, hs2]
              cases b2 with
              | true =>
                rw [solveFuel_branch_t2 f p a i a1 s1 a2 s2 a4 a6 hc hul hpl hi hnv hr1 hr2,
                  solve_branch_t2 p a i a1 s1 a2 s2 a4 a6 hc hul hpl hi hnv hs1 hs2]
              | false =>
                rw [solveFuel_branch_ff f p a i a1 s1 a2 s2 a4 a6 hc hul hpl hi hnv hr1 hr2,
                  solve_branch_ff p a i a1 s1 a2 s2 a4 a6 hc hul hpl hi hnv hs1 hs2]

/-! Transfer to `solve` and concrete evaluations. -/

theorem solve_eq_fuel (p : SATproblem) (a : List Int) (i : Nat) :
    solveFuel (p.numVars + 2) p a i = some (solve p a i) :=
  solveFuel_spec (p.numVars + 2) p a i (by omega)

theorem getD_replicate_zero (n j : Nat) : (List.replicate n (0 : Int)).getD j 0 = 0 := by
  induction n generalizing j with
  | zero => rfl
  | succ n ih =>
    cases j with
    | zero => rfl
    | succ j => exact ih j

theorem solve_eval_sat : solve (SATproblem.mk 1 [[1]]) [0] 1 = (true, [1]) := by
  have h1 := solve_eq_fuel (SATproblem.mk 1 [[1]]) [0] 1
  have h2 : solveFuel ((SATproblem.mk 1 [[1]]).numVars + 2) (SATproblem.mk 1 [[1]]) [0] 1 =
      some (true, [1]) := by decide
  rw [h2] at h1
  exact (Option.some.inj h1).symm

theorem solve_eval_unsat : solve (SATproblem.mk 1 [[1], [-1]]) [0] 1 = (false, [0]) := by
  have h1 := solve_eq_fuel (SATproblem.mk 1 [[1], [-1]]) [0] 1
  have h2 : solveFuel ((SATproblem.mk 1 [[1], [-1]]).numVars + 2)
      (SATproblem.mk 1 [[1], [-1]]) [0] 1 = some (false, [0]) := by decide
  rw [h2] at h1
  exact (Option.some.inj h1).symm

/-! The claims. -/

/-- Claim C1: completeness of the driver.  For every problem satisfying the
Problem Model invariant (`1 ≤ |l| ≤ numVars` for every stored literal),
`solve(problem, assignment, 1)` on the all-UNASSIGNED assignment returns true
iff there exists a total assignment of true/false to variables `1..numVars`
satisfying at least one literal in every stored clause. -/
theorem claim_driver_completeness (p : SATproblem) (hinv : ProblemInv p) :
    (solve p (List.replicate p.numVars 0) 1).1 = true ↔
      ∃ σ : List Int, TotalOn σ p.numVars ∧ Satisfies σ p := by
  constructor
  · intro htrue
    have h := fuelSound (p.numVars + 2) p (List.replicate p.numVars 0) 1
      (solve p (List.replicate p.numVars 0) 1) hinv (by simp)
      (fun j => Or.inl (getD_replicate_zero p.numVars j)) (fun j hj => by omega)
      (solve_eq_fuel p _ 1) htrue
    exact ⟨_, h.1, h.2⟩
  · intro hex
    obtain ⟨σ, htot, hsat⟩ := hex
    by_contra hfalse
    have hf : (solve p (List.replicate p.numVars 0) 1).1 = false :=
      Bool.eq_false_iff.mpr hfalse
    exact fuelComplete (p.numVars + 2) p (List.replicate p.numVars 0) 1
      (solve p (List.replicate p.numVars 0) 1) σ hinv (by simp)
      (solve_eq_fuel p _ 1) hf htot
      (fun j hj => absurd (getD_replicate_zero p.numVars j) hj) hsat

/-- Witness for C1 at the one-variable problem with single clause `[1]`. -/
theorem claim_driver_completeness_witness :
    ∃ σ : List Int, TotalOn σ 1 ∧ Satisfies σ (SATproblem.mk 1 [[1]]) :=
  (claim_driver_completeness (SATproblem.mk 1 [[1]]) (by unfold ProblemInv; decide)).mp
    (by show (solve (SATproblem.mk 1 [[1]]) [0] 1).1 = true; rw [solve_eval_sat])

/-- Claim C2: soundness of the produced model.  Whenever the top-level `solve`
call returns true, the final assignment satisfies every stored clause: each
clause has a literal whose variable's value matches the literal's polarity. -/
theorem claim_model_soundness (p : SATproblem) (hinv : ProblemInv p)
    (htrue : (solve p (List.replicate p.numVars 0) 1).1 = true) :
    ∀ c ∈ p.clauses, ∃ l ∈ c,
      litSatisfied (solve p (List.replicate p.numVars 0) 1).2 l = true :=
  (fuelSound (p.numVars + 2) p (List.replicate p.numVars 0) 1
    (solve p (List.replicate p.numVars 0) 1) hinv (by simp)
    (fun j => Or.inl (getD_replicate_zero p.numVars j)) (fun j hj => by omega)
    (solve_eq_fuel p _ 1) htrue).2

/-- Witness for C2 at the one-variable problem with single clause `[1]`. -/
theorem claim_model_soundness_witness :
    litSatisfied (solve (SATproblem.mk 1 [[1]]) (List.replicate 1 0) 1).2 1 = true := by
  have h := claim_model_soundness (SATproblem.mk 1 [[1]]) (by unfold ProblemInv; decide)
    (by show (solve (SATproblem.mk 1 [[1]]) [0] 1).1 = true; rw [solve_eval_sat])
    [1] (by simp)
  simpa using h

/-- Claim C3 (code bug): the tautology scan of `parseDIMACS` is not total on a
zero-length literal list.  Its loop bound `clause.size() - 1` is computed in
`size_t`; for the empty clause it underflows to `2^64 - 1`, so the first
iteration reads `clause[0]` and `clause[1]` out of bounds. -/
theorem claim_empty_clause_scan_oob :
    tautScanBound (List.length ([] : List Int)) = 2 ^ 64 - 1 ∧
      ¬tautScanAccessSafe ([] : List Int) := by
  have hb : tautScanBound (List.length ([] : List Int)) = 2 ^ 64 - 1 := by
    rw [tautScanBound]
    norm_num
  refine ⟨hb, ?_⟩
  intro h
  have h1 := h 0 (by rw [hb]; norm_num)
  exact absurd h1 (by simp)

/-- Claim C4 (code bug): the clause `1 3 -3 0` is tautological (contains `3`
and `-3`), but after value-sorting the complementary pair is not adjacent, so
the scan misses it and the clause is stored. -/
theorem claim_tautology_elimination_bug :
    processRawClause [1, 3, -3] = some [-3, 1, 3] ∧
      (3 : Int) ∈ [(-3 : Int), 1, 3] ∧ (-3 : Int) ∈ [(-3 : Int), 1, 3] := by
  refine ⟨by decide, by simp, by simp⟩

/-- Claim C5: backtracking purity.  For every problem satisfying the Problem
Model invariant, every assignment array and every start index, a `solve` call
that returns false leaves the assignment array entry-for-entry equal to its
value before the call. -/
theorem claim_backtracking_purity (p : SATproblem) (a : List Int) (i : Nat)
    (hinv : ProblemInv p) (hfalse : (solve p a i).1 = false) :
    (solve p a i).2 = a :=
  fuelFrame (p.numVars + 2) p a i (solve p a i) hinv (solve_eq_fuel p a i) hfalse

/-- Witness for C5 at the immediately-conflicting problem `{1}, {-1}`. -/
theorem claim_backtracking_purity_witness :
    (solve (SATproblem.mk 1 [[1], [-1]]) [0] 1).2 = [0] :=
  claim_backtracking_purity (SATproblem.mk 1 [[1], [-1]]) [0] 1 (by unfold ProblemInv; decide)
    (by rw [solve_eval_unsat])

/-- Claim C6 (code bug): when parsing or solving raises, the catch blocks of
`main` print the `s ERROR` line but then fall through to `return 0`, so the
process exits with status 0, not the non-zero status the specification
requires. -/
theorem claim_error_exit_status :
    mainVerdict (Except.error "unexpected failure") = (Verdict.error, 0) := rfl

/-- Claim C7: Unit Propagator contract.  For in-range problems, the returned
literals are exactly those occurring in a clause with no satisfied literal and
exactly one literal occurrence whose variable is unassigned, namely that
literal. -/
theorem claim_unit_propagator_contract (p : SATproblem) (a : List Int)
    (hrange : ∀ c ∈ p.clauses, ∀ l ∈ c, 1 ≤ l.natAbs ∧ l.natAbs ≤ a.length)
    (l : Int) :
    l ∈ findUnitClauses p a ↔
      ∃ c ∈ p.clauses, (∀ x ∈ c, litSatisfied a x = false) ∧ l ∈ c ∧
        litValue a l = 0 ∧ c.countP (fun x => litValue a x == 0) = 1 :=
  mem_findUnitClauses p a l
    (fun c hc x hx => by have := (hrange c hc x hx).1; omega)

/-- Witness for C7: variable 1 is forced by the unit clause `[1]`. -/
theorem claim_unit_propagator_contract_witness :
    (1 : Int) ∈ findUnitClauses (SATproblem.mk 1 [[1]]) [0] ↔
      ∃ c ∈ (SATproblem.mk 1 [[1]]).clauses, (∀ x ∈ c, litSatisfied [0] x = false) ∧
        (1 : Int) ∈ c ∧ litValue [0] 1 = 0 ∧
        c.countP (fun x => litValue [0] x == 0) = 1 :=
  claim_unit_propagator_contract (SATproblem.mk 1 [[1]]) [0] (by decide) 1

/-- Claim C8: Pure-Literal Eliminator contract.  For in-range problems with
`length(assignment) = numVars`, membership in the result is exactly the
pure-literal condition (unassigned variable occurring in a single polarity
among unassigned occurrences in clauses with no satisfied literal, the
returned literal carrying that polarity), and the result is strictly
increasing in variable index, hence one literal per qualifying variable. -/
theorem claim_pure_literal_contract (p : SATproblem) (a : List Int)
    (_hlen : a.length = p.numVars)
    (_hrange : ∀ c ∈ p.clauses, ∀ l ∈ c, 1 ≤ l.natAbs ∧ l.natAbs ≤ p.numVars) :
    (∀ l : Int, l ∈ findPureLiterals p a ↔ PureCondP p a l) ∧
      List.Pairwise (fun x y : Int => x.natAbs < y.natAbs) (findPureLiterals p a) :=
  ⟨fun l => mem_findPureLiterals p a l, findPureLiterals_pairwise p a⟩

/-- Witness for C8 at the problem `{1, 2}` with both variables unassigned. -/
theorem claim_pure_literal_contract_witness :
    (∀ l : Int, l ∈ findPureLiterals (SATproblem.mk 2 [[1, 2]]) [0, 0] ↔
      PureCondP (SATproblem.mk 2 [[1, 2]]) [0, 0] l) ∧
      List.Pairwise (fun x y : Int => x.natAbs < y.natAbs)
        (findPureLiterals (SATproblem.mk 2 [[1, 2]]) [0, 0]) :=
  claim_pure_literal_contract (SATproblem.mk 2 [[1, 2]]) [0, 0] (by decide) (by decide)

/-- Claim C9: termination of the driver.  The branch variable scan never moves
the start index backwards (`nextVar + 1 > startIndex`), and `solve` equals its
fuel-bounded variant whenever the fuel exceeds `numVars + 1 - startIndex`:
the recursion terminates with depth bounded by the number of variables. -/
theorem claim_driver_termination :
    (∀ (a : List Int) (n i : Nat), i < findNext a n i + 1) ∧
      (∀ (f : Nat) (p : SATproblem) (a : List Int) (i : Nat),
        p.numVars + 1 - i < f → solveFuel f p a i = some (solve p a i)) :=
  ⟨fun a n i => Nat.lt_succ_of_le (findNext_ge a n i), solveFuel_spec⟩

/-- Witness for C9 at a concrete one-variable problem. -/
theorem claim_driver_termination_witness :
    (1 : Nat) < findNext [0] 1 1 + 1 ∧
      solveFuel 3 (SATproblem.mk 1 [[1]]) [0] 1 =
        some (solve (SATproblem.mk 1 [[1]]) [0] 1) :=
  ⟨claim_driver_termination.1 [0] 1 1,
    claim_driver_termination.2 3 (SATproblem.mk 1 [[1]]) [0] 1 (by decide)⟩

/-- Claim C10 (implicit): success implies a total assignment.  If the
top-level `solve` call returns true then every entry of the final assignment
is `1` or `-1`, so every printed model entry `assignment[i] * (i+1)` is a
nonzero signed index. -/
theorem claim_success_total_assignment (p : SATproblem) (hinv : ProblemInv p)
    (htrue : (solve p (List.replicate p.numVars 0) 1).1 = true) :
    (∀ j, j < p.numVars →
      ((solve p (List.replicate p.numVars 0) 1).2.getD j 0 = 1 ∨
        (solve p (List.replicate p.numVars 0) 1).2.getD j 0 = -1)) ∧
      ∀ j, j < p.numVars →
        (solve p (List.replicate p.numVars 0) 1).2.getD j 0 * Int.ofNat (j + 1) ≠ 0 := by
  have h := (fuelSound (p.numVars + 2) p (List.replicate p.numVars 0) 1
    (solve p (List.replicate p.numVars 0) 1) hinv (by simp)
    (fun j => Or.inl (getD_replicate_zero p.numVars j)) (fun j hj => by omega)
    (solve_eq_fuel p _ 1) htrue).1
  refine ⟨h.2, ?_⟩
  intro j hj
  have hv : (solve p (List.replicate p.numVars 0) 1).2.getD j 0 ≠ 0 := by
    rcases h.2 j hj with h1 | h1 <;> rw [h1] <;> omega
  have hj1 : (0 : Int) < Int.ofNat (j + 1) := Int.ofNat_pos.mpr (by omega)
  intro hc
  rcases mul_eq_zero.mp hc with h2 | h2
  · exact hv h2
  · omega

/-- Witness for C10 at the one-variable problem with single clause `[1]`. -/
theorem claim_success_total_assignment_witness :
    (∀ j, j < (SATproblem.mk 1 [[1]]).numVars →
      ((solve (SATproblem.mk 1 [[1]]) (List.replicate 1 0) 1).2.getD j 0 = 1 ∨
        (solve (SATproblem.mk 1 [[1]]) (List.replicate 1 0) 1).2.getD j 0 = -1)) ∧
      ∀ j, j < (SATproblem.mk 1 [[1]]).numVars →
        (solve (SATproblem.mk 1 [[1]]) (List.replicate 1 0) 1).2.getD j 0 *
          Int.ofNat (j + 1) ≠ 0 :=
  claim_success_total_assignment (SATproblem.mk 1 [[1]]) (by unfold ProblemInv; decide)
    (by show (solve (SATproblem.mk 1 [[1]]) [0] 1).1 = true; rw [solve_eval_sat])
